import Mathlib

/-!
# A verification of the `mbdiscid` core

This file shallowly embeds the C sources of the `mbdiscid` disc-id
calculator (`src/discid.c`, `src/toc.c`, `src/isrc.c`, `src/cdtext.c`,
`src/scsi_linux.c`) and proves properties of the embedded functions:
the FreeDB and AccurateRip identifier formulas, TOC dialect detection,
parsing and rendering with their round-trip behaviour, the ISRC
majority-voting collector, and the CD-Text CRC gate.

Modelling conventions:
* C `int` / `int32_t` values are `Int`; conversions to unsigned types are
  explicit `% 2 ^ 32` (resp. `% 2 ^ 16`) steps; C `/` and `%` on `int`
  are `Int.tdiv` / `Int.tmod` (truncation towards zero).
* A `toc_t` stores its tracks in a 99-entry array of which the first
  `track_count` entries are meaningful; the embedding keeps exactly those
  entries in a list.  An unused (zeroed) array slot is `zeroTrack`.
* Functions that report failure through an `EX_DATAERR` return code are
  embedded as `Option`-valued functions (`none` = failure).
* `verbose` diagnostics and the heap management of the C code have no
  observable effect on the values computed and are not modelled.
-/

/-! ## Constants from `types.h` and `toc.c` -/

def FRAMES_PER_SECOND : Int := 75

def PREGAP_FRAMES : Int := 150

def MAX_TRACKS : Nat := 99

/-- Modelled from the spec: `toc.c` bounds every parsed TOC value by
`MAX_CD_FRAMES`, a constant whose defining header is not among the
sources; the spec (§4.6) describes the check as "reject any exceeding a
large CD-frame ceiling".  We use the largest addressable CD frame
(99:59:74, i.e. `(99*60+59)*75+74 = 449999`); the theorems below do not
depend on the exact ceiling, only on it admitting their concrete TOCs. -/
def MAX_CD_FRAMES : Int := 449999

/-! ## Data model (`types.h`, extended by the fields `toc.c` uses) -/

inductive TrackType where
  | unknown
  | audio
  | data
deriving DecidableEq, Repr, Inhabited

/-- `track_t` from `types.h` (plus the `session` field that `toc.c`
assigns). -/
structure Track where
  number : Int
  session : Int
  type : TrackType
  offset : Int
  length : Int
  isrc : String
deriving DecidableEq, Repr, Inhabited

/-- A zeroed `track_t` array slot (`memset` in `toc_init`). -/
def zeroTrack : Track :=
  { number := 0, session := 0, type := .unknown, offset := 0, length := 0, isrc := "" }

/-- `toc_t` from `types.h` (plus the `last_session` field that `toc.c`
assigns); `tracks` holds exactly the first `track_count` array entries. -/
structure Toc where
  first_track : Int
  last_track : Int
  track_count : Nat
  audio_count : Nat
  data_count : Nat
  leadout : Int
  audio_leadout : Int
  last_session : Int
  tracks : List Track
deriving DecidableEq, Repr, Inhabited

/-! ## Numeric helpers (C integer semantics, decimal and hex rendering) -/

/-- C cast of a (64-bit) signed value to `int32_t` (wrap-around). -/
def toInt32 (v : Int) : Int := (v + 2 ^ 31) % 2 ^ 32 - 2 ^ 31

/-- C cast of a signed value to `uint32_t` (`Nat` result, mod `2^32`). -/
def toUInt32Nat (v : Int) : Nat := (v % 2 ^ 32).toNat

/-- `strtol` clamps out-of-range values to `LONG_MIN` / `LONG_MAX`. -/
def strtolClamp (v : Int) : Int := max (-(2 ^ 63)) (min v (2 ^ 63 - 1))

/-- Decimal digit character (`'0' + n`). -/
def decDigitChar (n : Nat) : Char := Char.ofNat (48 + n)

/-- Most-significant-first decimal digits of `n`; the fuel argument makes
the recursion structural (`n + 1` units always suffice). -/
def decChars : Nat → Nat → List Char
  | 0, _ => []
  | fuel + 1, n =>
    if n < 10 then [decDigitChar n]
    else decChars fuel (n / 10) ++ [decDigitChar (n % 10)]

/-- `printf "%d"` rendering of a natural number. -/
def natRepr (n : Nat) : String := ⟨decChars (n + 1) n⟩

/-- `printf "%d"` rendering of a C `int`. -/
def intRepr (v : Int) : String :=
  if v < 0 then ⟨'-' :: decChars ((-v).toNat + 1) (-v).toNat⟩ else natRepr v.toNat

/-- Lowercase hexadecimal digit character. -/
def hexDigitChar (n : Nat) : Char :=
  if n < 10 then Char.ofNat (48 + n) else Char.ofNat (87 + n)

/-- `printf "%08x"` rendering of a `uint32_t` value. -/
def hex8 (n : Nat) : String :=
  ⟨[hexDigitChar (n / 16 ^ 7 % 16), hexDigitChar (n / 16 ^ 6 % 16),
    hexDigitChar (n / 16 ^ 5 % 16), hexDigitChar (n / 16 ^ 4 % 16),
    hexDigitChar (n / 16 ^ 3 % 16), hexDigitChar (n / 16 ^ 2 % 16),
    hexDigitChar (n / 16 ^ 1 % 16), hexDigitChar (n % 16)]⟩

/-- `printf "%03d"` rendering (zero-padded to width 3). -/
def dec3 (n : Nat) : String :=
  ⟨List.replicate (3 - (decChars (n + 1) n).length) '0' ++ decChars (n + 1) n⟩

/-! ## `discid.c`: the FreeDB identifier -/

/-- Fuel-driven decimal digit sum (the fuel makes the `while (n > 0)`
loop of `digit_sum` structural; `n + 1` units always suffice). -/
def digitSumGo : Nat → Nat → Nat
  | 0, _ => 0
  | fuel + 1, n => if n = 0 then 0 else n % 10 + digitSumGo fuel (n / 10)

/-- `digit_sum` from `discid.c`: sum of the decimal digits of `n`
(`0` for non-positive `n`, as the C loop body never runs then). -/
def digit_sum (n : Int) : Int := Int.ofNat (digitSumGo (n.toNat + 1) n.toNat)

/-- `calc_freedb_id` from `discid.c`.  The `uint32_t disc_id` store is the
final `% 2 ^ 32`; shifts and bitwise or on the non-negative intermediate
values are computed in `Nat`. -/
def calc_freedb_id (toc : Toc) : String :=
  let n : Int := toc.tracks.foldl
    (fun acc tr => acc + digit_sum ((tr.offset + PREGAP_FRAMES).tdiv FRAMES_PER_SECOND)) 0
  let leadout_frames : Int := toc.leadout + PREGAP_FRAMES
  let first_offset_frames : Int := (toc.tracks.headD zeroTrack).offset + PREGAP_FRAMES
  let t : Int := leadout_frames.tdiv FRAMES_PER_SECOND - first_offset_frames.tdiv FRAMES_PER_SECOND
  let disc_id : Nat :=
    (((n.tmod 255).toNat <<< 24) ||| (t.toNat <<< 8) ||| toc.track_count) % 2 ^ 32
  hex8 disc_id

/-! ### Specification-side formulas for claim C1 -/

/-- The spec's `n`: sum over all tracks of the decimal digit sum of
`⌊(offset_i + 150) / 75⌋`. -/
def freedbSpecN (toc : Toc) : Nat :=
  (toc.tracks.map (fun tr => (Nat.digits 10 ((tr.offset.toNat + 150) / 75)).sum)).sum

/-- The spec's `t`: `⌊(leadout + 150) / 75⌋ − ⌊(first_offset + 150) / 75⌋`,
a difference of two independently floored second values. -/
def freedbSpecT (toc : Toc) : Nat :=
  (toc.leadout.toNat + 150) / 75 - ((toc.tracks.headD zeroTrack).offset.toNat + 150) / 75

/-- The spec's FreeDB id value `((n mod 255) << 24) | (t << 8) | track_count`. -/
def freedbSpecId (toc : Toc) : Nat :=
  ((freedbSpecN toc % 255) <<< 24) ||| (freedbSpecT toc <<< 8) ||| toc.track_count

/-- The sixteen lowercase hexadecimal digit characters. -/
def lowercaseHexChars : List Char := "0123456789abcdef".data

/-! ### Bridge lemmas for C1 -/

theorem digitSumGo_eq_digits_sum (fuel : Nat) :
    ∀ n : Nat, n < fuel → digitSumGo fuel n = (Nat.digits 10 n).sum := by
  induction fuel with
  | zero => intro n h; omega
  | succ f ih =>
    intro n h
    by_cases hn : n = 0
    · subst hn; simp [digitSumGo]
    · have h10 : (1 : Nat) < 10 := by norm_num
      have hpos : 0 < n := Nat.pos_of_ne_zero hn
      rw [digitSumGo, if_neg hn, Nat.digits_def' h10 hpos, List.sum_cons,
        ih (n / 10) (by omega)]

theorem digit_sum_ofNat (k : Nat) : digit_sum (Int.ofNat k) = Int.ofNat ((Nat.digits 10 k).sum) := by
  have h : (Int.ofNat k).toNat = k := rfl
  unfold digit_sum
  rw [h, digitSumGo_eq_digits_sum (k + 1) k (Nat.lt_succ_self k)]

theorem tdiv_ofNat (a b : Nat) : (Int.ofNat a).tdiv (Int.ofNat b) = Int.ofNat (a / b) := rfl

theorem tmod_ofNat (a b : Nat) : (Int.ofNat a).tmod (Int.ofNat b) = Int.ofNat (a % b) := rfl

theorem foldl_add_digit_sum (f : Track → Int) (l : List Track) :
    ∀ acc : Int, l.foldl (fun a tr => a + f tr) acc = acc + (l.map f).sum := by
  induction l with
  | nil => intro acc; simp
  | cons tr rest ih =>
    intro acc
    rw [List.foldl_cons, ih, List.map_cons, List.sum_cons]
    ring

theorem hex8_mod (n : Nat) : hex8 (n % 2 ^ 32) = hex8 n := by
  have key : ∀ i : Nat, i ≤ 7 → n % 2 ^ 32 / 16 ^ i % 16 = n / 16 ^ i % 16 := by
    intro i hi
    have h1 : (2 : Nat) ^ 32 = 16 ^ i * (16 * 16 ^ (7 - i)) := by
      interval_cases i <;> norm_num
    rw [h1, Nat.mod_mul_right_div_self, Nat.mod_mul_right_mod]
  have e7 := key 7 (by omega)
  have e6 := key 6 (by omega)
  have e5 := key 5 (by omega)
  have e4 := key 4 (by omega)
  have e3 := key 3 (by omega)
  have e2 := key 2 (by omega)
  have e1 := key 1 (by omega)
  have e0 : n % 2 ^ 32 % 16 = n % 16 := by
    have h232 : (2 : Nat) ^ 32 = 16 * 2 ^ 28 := by norm_num
    rw [h232, Nat.mod_mul_right_mod]
  unfold hex8
  rw [e7, e6, e5, e4, e3, e2]
  rw [show (16 : Nat) ^ 1 = 16 by norm_num] at e1 ⊢
  rw [e1, e0]

theorem hexDigitChar_mem (k : Nat) (hk : k < 16) : hexDigitChar k ∈ lowercaseHexChars := by
  interval_cases k <;> decide


theorem tdiv_natCast (a b : Nat) : ((a : Int)).tdiv (b : Int) = ((a / b : Nat) : Int) := rfl

theorem tmod_natCast (a b : Nat) : ((a : Int)).tmod (b : Int) = ((a % b : Nat) : Int) := rfl

theorem digit_sum_natCast (k : Nat) : digit_sum (k : Int) = ((Nat.digits 10 k).sum : Int) := by
  have h : ((k : Int)).toNat = k := rfl
  unfold digit_sum
  rw [h, digitSumGo_eq_digits_sum (k + 1) k (Nat.lt_succ_self k)]
  rfl

theorem freedb_n_eq (l : List Track) (h : ∀ tr ∈ l, 0 ≤ tr.offset) :
    (l.map (fun tr => digit_sum ((tr.offset + PREGAP_FRAMES).tdiv FRAMES_PER_SECOND))).sum
      = ((l.map (fun tr => (Nat.digits 10 ((tr.offset.toNat + 150) / 75)).sum)).sum : Int) := by
  induction l with
  | nil => simp
  | cons tr rest ih =>
    have htr : 0 ≤ tr.offset := h tr (List.mem_cons_self tr rest)
    rw [List.map_cons, List.map_cons, List.sum_cons, List.sum_cons,
      ih (fun x hx => h x (List.mem_cons_of_mem tr hx))]
    have hhead : digit_sum ((tr.offset + PREGAP_FRAMES).tdiv FRAMES_PER_SECOND)
        = (((Nat.digits 10 ((tr.offset.toNat + 150) / 75)).sum : Nat) : Int) := by
      have hoffs : tr.offset + PREGAP_FRAMES = ((tr.offset.toNat + 150 : Nat) : Int) := by
        show tr.offset + 150 = ((tr.offset.toNat + 150 : Nat) : Int)
        omega
      rw [hoffs, show FRAMES_PER_SECOND = ((75 : Nat) : Int) from rfl, tdiv_natCast,
        digit_sum_natCast]
    rw [hhead]
    push_cast
    ring

/-- **C1.**  For every TOC with non-negative raw track LBAs whose first
track does not start past the leadout, `calc_freedb_id` returns the
8-character lowercase-hex rendering of
`((n mod 255) <<< 24) ||| (t <<< 8) ||| track_count`, where `n` is the sum
over all tracks of the decimal digit sum of `⌊(offset_i + 150) / 75⌋` and
`t` is `⌊(leadout + 150) / 75⌋ − ⌊(first_offset + 150) / 75⌋`, a
difference of two independently floored second values. -/
theorem calc_freedb_id_matches_spec (toc : Toc)
    (hoff : ∀ tr ∈ toc.tracks, 0 ≤ tr.offset)
    (hfirst : (toc.tracks.headD zeroTrack).offset ≤ toc.leadout) :
    calc_freedb_id toc = hex8 (freedbSpecId toc) ∧
      (hex8 (freedbSpecId toc)).length = 8 ∧
      ∀ c ∈ (hex8 (freedbSpecId toc)).data, c ∈ lowercaseHexChars := by
  have hhead : 0 ≤ (toc.tracks.headD zeroTrack).offset := by
    cases hl : toc.tracks with
    | nil => simp [hl, zeroTrack]
    | cons a rest =>
      have ha : a ∈ toc.tracks := by rw [hl]; exact List.mem_cons_self a rest
      simpa [hl] using hoff a ha
  have hlead : 0 ≤ toc.leadout := le_trans hhead hfirst
  refine ⟨?_, rfl, ?_⟩
  · have hn : toc.tracks.foldl
        (fun acc tr => acc + digit_sum ((tr.offset + PREGAP_FRAMES).tdiv FRAMES_PER_SECOND)) 0
        = ((freedbSpecN toc : Nat) : Int) := by
      rw [foldl_add_digit_sum
        (fun tr => digit_sum ((tr.offset + PREGAP_FRAMES).tdiv FRAMES_PER_SECOND)),
        freedb_n_eq toc.tracks hoff]
      simp [freedbSpecN]
    have hlo : toc.leadout + PREGAP_FRAMES = ((toc.leadout.toNat + 150 : Nat) : Int) := by
      show toc.leadout + 150 = ((toc.leadout.toNat + 150 : Nat) : Int)
      omega
    have hfo : (toc.tracks.headD zeroTrack).offset + PREGAP_FRAMES
        = (((toc.tracks.headD zeroTrack).offset.toNat + 150 : Nat) : Int) := by
      show (toc.tracks.headD zeroTrack).offset + 150
          = (((toc.tracks.headD zeroTrack).offset.toNat + 150 : Nat) : Int)
      omega
    have ht : (toc.leadout + PREGAP_FRAMES).tdiv FRAMES_PER_SECOND
        - ((toc.tracks.headD zeroTrack).offset + PREGAP_FRAMES).tdiv FRAMES_PER_SECOND
        = ((freedbSpecT toc : Nat) : Int) := by
      rw [hlo, hfo, show FRAMES_PER_SECOND = ((75 : Nat) : Int) from rfl, tdiv_natCast,
        tdiv_natCast]
      unfold freedbSpecT
      have hdivle : ((toc.tracks.headD zeroTrack).offset.toNat + 150) / 75
          ≤ (toc.leadout.toNat + 150) / 75 := by
        apply Nat.div_le_div_right
        omega
      omega
    show hex8 (((((toc.tracks.foldl
        (fun acc tr => acc + digit_sum ((tr.offset + PREGAP_FRAMES).tdiv FRAMES_PER_SECOND))
        0).tmod 255).toNat <<< 24)
        ||| (((toc.leadout + PREGAP_FRAMES).tdiv FRAMES_PER_SECOND
          - ((toc.tracks.headD zeroTrack).offset + PREGAP_FRAMES).tdiv FRAMES_PER_SECOND).toNat <<< 8)
        ||| toc.track_count) % 2 ^ 32)
      = hex8 (freedbSpecId toc)
    rw [hn, ht, show ((255 : Int)) = ((255 : Nat) : Int) from rfl, tmod_natCast]
    have h1 : (((freedbSpecN toc % 255 : Nat) : Int)).toNat = freedbSpecN toc % 255 := rfl
    have h2 : (((freedbSpecT toc : Nat) : Int)).toNat = freedbSpecT toc := rfl
    rw [h1, h2, ← freedbSpecId, hex8_mod]
  · intro c hc
    have hx : ∀ x : Nat, hexDigitChar (x % 16) ∈ lowercaseHexChars :=
      fun x => hexDigitChar_mem (x % 16) (Nat.mod_lt _ (by norm_num))
    simp only [hex8, String.data] at hc
    fin_cases hc <;> exact hx _

/-- Concrete two-track TOC used by the C1 witness. -/
def c1Toc : Toc :=
  { first_track := 1, last_track := 2, track_count := 2, audio_count := 2, data_count := 0,
    leadout := 20000, audio_leadout := 20000, last_session := 1,
    tracks :=
      [{ number := 1, session := 1, type := .audio, offset := 0, length := 9000, isrc := "" },
       { number := 2, session := 1, type := .audio, offset := 9000, length := 11000, isrc := "" }] }

theorem calc_freedb_id_matches_spec_witness :
    (∀ tr ∈ c1Toc.tracks, 0 ≤ tr.offset) ∧
      (c1Toc.tracks.headD zeroTrack).offset ≤ c1Toc.leadout ∧
      (calc_freedb_id c1Toc = hex8 (freedbSpecId c1Toc) ∧
        (hex8 (freedbSpecId c1Toc)).length = 8 ∧
        ∀ c ∈ (hex8 (freedbSpecId c1Toc)).data, c ∈ lowercaseHexChars) :=
  ⟨by decide, by decide, calc_freedb_id_matches_spec c1Toc (by decide) (by decide)⟩

/-! ## `discid.c`: the AccurateRip identifier -/

/-- `calc_accuraterip_id` from `discid.c`.  The `uint32_t` accumulators
`disc_id1` / `disc_id2` wrap at every store (`% 2 ^ 32`); the relative
`audio_index` counter is the second component of the fold state. -/
def calc_accuraterip_id (toc : Toc) : String :=
  let disc_id1 : Nat :=
    ((toc.tracks.foldl (fun acc tr =>
        if tr.type = TrackType.audio then (acc + toUInt32Nat tr.offset) % 2 ^ 32 else acc) 0)
      + toUInt32Nat toc.leadout) % 2 ^ 32
  let p : Nat × Nat := toc.tracks.foldl (fun p tr =>
      if tr.type = TrackType.audio then
        (((p.1 + toUInt32Nat (if tr.offset < 1 then 1 else tr.offset) * (p.2 % 2 ^ 32) % 2 ^ 32)
            % 2 ^ 32), p.2 + 1)
      else p) (0, 1)
  let disc_id2 : Nat :=
    (p.1 + toUInt32Nat toc.leadout * ((toc.audio_count + 1) % 2 ^ 32) % 2 ^ 32) % 2 ^ 32
  dec3 toc.audio_count ++ "-" ++ hex8 disc_id1 ++ "-" ++ hex8 disc_id2 ++ "-" ++ calc_freedb_id toc

/-! ### Specification-side formulas for claim C2 -/

/-- The audio tracks of a TOC, in order. -/
def audioTracks (toc : Toc) : List Track :=
  toc.tracks.filter (fun tr => tr.type = TrackType.audio)

/-- The spec's `X1`: sum of all audio-track LBAs plus the disc leadout,
modulo `2 ^ 32`. -/
def arSpecX1 (toc : Toc) : Nat :=
  (((audioTracks toc).map (fun tr => tr.offset.toNat)).sum + toc.leadout.toNat) % 2 ^ 32

/-- `Σ max(lba_i, 1) × i` over a track list with 1-based start index `i`. -/
def arWeighted : List Track → Nat → Nat
  | [], _ => 0
  | tr :: rest, i => max tr.offset.toNat 1 * i + arWeighted rest (i + 1)

/-- The spec's `X2`: `Σ max(lba_i, 1) × audio_index_i` over audio tracks
(1-based positions among audio tracks) plus `leadout × (audio_count + 1)`,
modulo `2 ^ 32`. -/
def arSpecX2 (toc : Toc) : Nat :=
  (arWeighted (audioTracks toc) 1 + toc.leadout.toNat * (toc.audio_count + 1)) % 2 ^ 32

/-! ### Bridge lemmas for C2 -/

theorem decChars_length_le (fuel : Nat) :
    ∀ n k : Nat, n < fuel → n < 10 ^ k → 1 ≤ k → (decChars fuel n).length ≤ k := by
  induction fuel with
  | zero => intro n k h _ _; omega
  | succ f ih =>
    intro n k h hk h1
    by_cases hn : n < 10
    · simp [decChars, hn]; omega
    · have hk2 : 2 ≤ k := by
        by_contra hcon
        have : k = 1 := by omega
        subst this
        simp at hk
        omega
      rw [decChars, if_neg hn, List.length_append]
      have hrec := ih (n / 10) (k - 1) (by omega) (by
        have : 10 ^ k = 10 ^ (k - 1) * 10 := by
          conv_lhs => rw [show k = (k - 1) + 1 by omega]
          ring
        rw [this] at hk
        omega) (by omega)
      simp only [List.length_cons, List.length_nil]
      omega

theorem dec3_length (n : Nat) (h : n < 1000) : (dec3 n).length = 3 := by
  have hle : (decChars (n + 1) n).length ≤ 3 :=
    decChars_length_le (n + 1) n 3 (Nat.lt_succ_self n) (by omega) (by omega)
  show (List.replicate (3 - (decChars (n + 1) n).length) '0' ++ decChars (n + 1) n).length = 3
  rw [List.length_append, List.length_replicate]
  omega

theorem ar_fold1 (l : List Track) (hoff : ∀ tr ∈ l, 0 ≤ tr.offset ∧ tr.offset < 2 ^ 32) :
    ∀ acc : Nat, acc < 2 ^ 32 →
      l.foldl (fun acc tr =>
          if tr.type = TrackType.audio then (acc + toUInt32Nat tr.offset) % 2 ^ 32 else acc) acc
        = (acc + ((l.filter (fun tr => tr.type = TrackType.audio)).map
            (fun tr => tr.offset.toNat)).sum) % 2 ^ 32 := by
  induction l with
  | nil =>
    intro acc hacc
    simp
    omega
  | cons tr rest ih =>
    intro acc hacc
    have htr := hoff tr (List.mem_cons_self tr rest)
    have hrest : ∀ x ∈ rest, 0 ≤ x.offset ∧ x.offset < 2 ^ 32 :=
      fun x hx => hoff x (List.mem_cons_of_mem tr hx)
    by_cases hty : tr.type = TrackType.audio
    · rw [List.foldl_cons, if_pos hty,
        ih hrest _ (Nat.mod_lt _ (by norm_num))]
      have hcast : toUInt32Nat tr.offset = tr.offset.toNat := by
        unfold toUInt32Nat
        rw [Int.emod_eq_of_lt htr.1 htr.2]
      rw [hcast, List.filter_cons_of_pos (by simp [hty]), List.map_cons, List.sum_cons,
        Nat.mod_add_mod]
      omega
    · rw [List.foldl_cons, if_neg hty, ih hrest acc hacc,
        List.filter_cons_of_neg (by simp [hty])]

theorem ar_fold2 (l : List Track) (hoff : ∀ tr ∈ l, 0 ≤ tr.offset ∧ tr.offset < 2 ^ 32) :
    ∀ (p1 i : Nat), p1 < 2 ^ 32 → 1 ≤ i → i + l.length < 2 ^ 32 →
      l.foldl (fun p tr =>
          if tr.type = TrackType.audio then
            (((p.1 + toUInt32Nat (if tr.offset < 1 then 1 else tr.offset) * (p.2 % 2 ^ 32) % 2 ^ 32)
                % 2 ^ 32), p.2 + 1)
          else p) (p1, i)
        = ((p1 + arWeighted (l.filter (fun tr => tr.type = TrackType.audio)) i) % 2 ^ 32,
            i + (l.filter (fun tr => tr.type = TrackType.audio)).length) := by
  induction l with
  | nil =>
    intro p1 i hp1 hi hlen
    simp [arWeighted]
    omega
  | cons tr rest ih =>
    intro p1 i hp1 hi hlen
    have htr := hoff tr (List.mem_cons_self tr rest)
    have hrest : ∀ x ∈ rest, 0 ≤ x.offset ∧ x.offset < 2 ^ 32 :=
      fun x hx => hoff x (List.mem_cons_of_mem tr hx)
    by_cases hty : tr.type = TrackType.audio
    · rw [List.foldl_cons, if_pos hty,
        ih hrest _ _ (Nat.mod_lt _ (by norm_num)) (by omega) (by simp at hlen ⊢; omega)]
      have hmax : toUInt32Nat (if tr.offset < 1 then 1 else tr.offset) = max tr.offset.toNat 1 := by
        by_cases hz : tr.offset < 1
        · have : tr.offset.toNat = 0 := by omega
          rw [if_pos hz, this]
          rfl
        · rw [if_neg hz]
          unfold toUInt32Nat
          rw [Int.emod_eq_of_lt htr.1 htr.2]
          omega
      have hidx : i % 2 ^ 32 = i := Nat.mod_eq_of_lt (by simp at hlen; omega)
      rw [List.filter_cons_of_pos (by simp [hty]), hmax, hidx]
      simp only [Prod.mk.injEq]
      refine ⟨?_, by simp [List.length_cons]; omega⟩
      rw [show ∀ F : List Track, arWeighted (tr :: F) i
          = max tr.offset.toNat 1 * i + arWeighted F (i + 1) from fun F => rfl]
      generalize (max tr.offset.toNat 1) * i = W
      generalize arWeighted (rest.filter (fun tr => decide (tr.type = TrackType.audio))) (i + 1) = A
      omega
    · rw [List.foldl_cons, if_neg hty, ih hrest p1 i hp1 hi (by simp at hlen ⊢; omega),
        List.filter_cons_of_neg (by simp [hty])]

/-- **C2.**  For every TOC (offsets and leadout in `int32` CD range,
`audio_count` consistent with the track list), `calc_accuraterip_id`
returns `NNN-X1-X2-X3` where `NNN` is the audio track count zero-padded
to 3 decimal digits, `X1` is the 8-hex sum mod `2^32` of all audio-track
LBAs plus the disc leadout, `X2` is the 8-hex sum mod `2^32` over audio
tracks of `max(lba_i, 1) * audio_index_i` (1-based position among audio
tracks) plus disc leadout times `audio_count + 1`, and `X3` is the FreeDB
ID string; the result never depends on the audio-session leadout. -/
theorem calc_accuraterip_id_matches_spec (toc : Toc)
    (hoff : ∀ tr ∈ toc.tracks, 0 ≤ tr.offset ∧ tr.offset < 2 ^ 32)
    (hlead : 0 ≤ toc.leadout ∧ toc.leadout < 2 ^ 32)
    (hcount : toc.audio_count = (audioTracks toc).length)
    (hlen : toc.tracks.length ≤ 99) :
    calc_accuraterip_id toc
        = dec3 toc.audio_count ++ "-" ++ hex8 (arSpecX1 toc) ++ "-" ++ hex8 (arSpecX2 toc)
          ++ "-" ++ calc_freedb_id toc ∧
      (dec3 toc.audio_count).length = 3 ∧
      ∀ x : Int, calc_accuraterip_id { toc with audio_leadout := x } = calc_accuraterip_id toc := by
  have hauxlen : (audioTracks toc).length ≤ toc.tracks.length := by
    unfold audioTracks
    exact List.length_filter_le _ _
  have hac : toc.audio_count ≤ 99 := by omega
  have hleadcast : toUInt32Nat toc.leadout = toc.leadout.toNat := by
    unfold toUInt32Nat
    rw [Int.emod_eq_of_lt hlead.1 hlead.2]
  refine ⟨?_, dec3_length _ (by omega), fun x => rfl⟩
  have h1 := ar_fold1 toc.tracks hoff 0 (by norm_num)
  have h2 := ar_fold2 toc.tracks hoff 0 1 (by norm_num) (le_refl 1) (by omega)
  simp only [calc_accuraterip_id, h1, h2, hleadcast]
  have hd1 : ((0 + ((toc.tracks.filter (fun tr => tr.type = TrackType.audio)).map
        (fun tr => tr.offset.toNat)).sum) % 2 ^ 32 + toc.leadout.toNat) % 2 ^ 32
      = arSpecX1 toc := by
    unfold arSpecX1 audioTracks
    generalize ((toc.tracks.filter (fun tr => tr.type = TrackType.audio)).map
        (fun tr => tr.offset.toNat)).sum = S
    omega
  have hd2 : ((0 + arWeighted (toc.tracks.filter (fun tr => tr.type = TrackType.audio)) 1) % 2 ^ 32
        + toc.leadout.toNat * ((toc.audio_count + 1) % 2 ^ 32) % 2 ^ 32) % 2 ^ 32
      = arSpecX2 toc := by
    unfold arSpecX2 audioTracks
    have hmod : (toc.audio_count + 1) % 2 ^ 32 = toc.audio_count + 1 :=
      Nat.mod_eq_of_lt (by omega)
    rw [hmod]
    generalize arWeighted (toc.tracks.filter (fun tr => tr.type = TrackType.audio)) 1 = W
    generalize toc.leadout.toNat * (toc.audio_count + 1) = L
    omega
  rw [hd1, hd2]

/-- Concrete mixed-mode TOC (data track first) used by the C2 witness. -/
def c2Toc : Toc :=
  { first_track := 1, last_track := 3, track_count := 3, audio_count := 2, data_count := 1,
    leadout := 30000, audio_leadout := 30000, last_session := 1,
    tracks :=
      [{ number := 1, session := 1, type := .data, offset := 0, length := 1000, isrc := "" },
       { number := 2, session := 1, type := .audio, offset := 1000, length := 14000, isrc := "" },
       { number := 3, session := 1, type := .audio, offset := 15000, length := 15000, isrc := "" }] }

theorem calc_accuraterip_id_matches_spec_witness :
    (∀ tr ∈ c2Toc.tracks, 0 ≤ tr.offset ∧ tr.offset < 2 ^ 32) ∧
      (0 ≤ c2Toc.leadout ∧ c2Toc.leadout < 2 ^ 32) ∧
      c2Toc.audio_count = (audioTracks c2Toc).length ∧
      c2Toc.tracks.length ≤ 99 ∧
      (calc_accuraterip_id c2Toc
          = dec3 c2Toc.audio_count ++ "-" ++ hex8 (arSpecX1 c2Toc) ++ "-" ++ hex8 (arSpecX2 c2Toc)
            ++ "-" ++ calc_freedb_id c2Toc ∧
        (dec3 c2Toc.audio_count).length = 3 ∧
        ∀ x : Int, calc_accuraterip_id { c2Toc with audio_leadout := x }
          = calc_accuraterip_id c2Toc) :=
  ⟨by decide, by decide, by decide, by decide,
    calc_accuraterip_id_matches_spec c2Toc (by decide) (by decide) (by decide) (by decide)⟩

/-! ## `toc.c`: tokenisation and `parse_integers` -/

/-- The separator set of `strtok_r(str, " \t\n\r", ...)`. -/
def isSepChar (c : Char) : Bool := c = ' ' || c = '\t' || c = '\n' || c = '\r'

/-- `strtok_r` splitting: maximal runs of non-separator characters
(the accumulator holds the current token reversed). -/
def tokenizeGo : List Char → List Char → List (List Char)
  | [], acc => if acc.isEmpty then [] else [acc.reverse]
  | c :: rest, acc =>
    if isSepChar c then
      if acc.isEmpty then tokenizeGo rest [] else acc.reverse :: tokenizeGo rest []
    else tokenizeGo rest (c :: acc)

def tokenize (cs : List Char) : List (List Char) := tokenizeGo cs []

def isDigitChar (c : Char) : Bool := 48 ≤ c.toNat && c.toNat ≤ 57

/-- The base-10 digit-run accumulator of `strtol`; fails on the first
non-digit character (which `parse_integers` treats as an error via its
`*endptr != '\0'` check). -/
def parseDigitsGo : List Char → Nat → Option Nat
  | [], acc => some acc
  | c :: rest, acc =>
    if isDigitChar c then parseDigitsGo rest (acc * 10 + (c.toNat - 48)) else none

/-- `strtol(token, &endptr, 10)` composed with the `*endptr != '\0'`
check of `parse_integers`: an optional sign followed by a non-empty digit
run consuming the whole token; the value is clamped to the `long` range. -/
def parseToken (cs : List Char) : Option Int :=
  match cs with
  | [] => none
  | c :: rest =>
    if c = '-' then
      if rest.isEmpty then none
      else (parseDigitsGo rest 0).map (fun n => strtolClamp (-(n : Int)))
    else if c = '+' then
      if rest.isEmpty then none
      else (parseDigitsGo rest 0).map (fun n => strtolClamp ((n : Int)))
    else (parseDigitsGo (c :: rest) 0).map (fun n => strtolClamp ((n : Int)))

/-- `parse_integers` from `toc.c`: split on whitespace, parse up to
`max_vals` tokens as C `long`s stored into `int32_t` slots; a non-numeric
consumed token fails the whole parse, while tokens beyond `max_vals` are
never consumed at all. -/
def parse_integers (input : String) (max_vals : Nat) : Option (List Int) :=
  ((tokenize input.data).take max_vals).mapM (fun tok => (parseToken tok).map toInt32)

/-! ## `toc.c`: the four dialect parsers -/

/-- The `offset <= previous` ascending check that the parsers and
`toc_detect_format` run over consecutive values. -/
def strictlyAscending : List Int → Bool
  | [] => true
  | [_] => true
  | a :: b :: rest => a < b && strictlyAscending (b :: rest)

/-- The track-length computation shared by all parsers: each track runs
to the next track's offset, the last one to the leadout. -/
def computeLengths : List Int → Int → List Int
  | [], _ => []
  | [o], leadout => [leadout - o]
  | o :: o2 :: rest, leadout => (o2 - o) :: computeLengths (o2 :: rest) leadout

/-- Builds the parsed track entries: consecutive numbers from `num`,
session 1, type chosen per track number, paired offsets and lengths. -/
def mkTracksGo (tyOf : Int → TrackType) : Int → List Int → List Int → List Track
  | _, [], _ => []
  | _, _ :: _, [] => []
  | num, o :: os, len :: lens =>
    { number := num, session := 1, type := tyOf num, offset := o, length := len, isrc := "" }
      :: mkTracksGo tyOf (num + 1) os lens

/-- The value-level body of `toc_parse_raw`: `first last
offset1...offsetN leadout`, all values frame counts (raw LBA + 150); all
tracks assumed audio. -/
def toc_parse_raw_vals (vals : List Int) : Option Toc :=
    if vals.length < 4 then none
    else
      let first := vals.getD 0 0
      let last := vals.getD 1 0
      let expected_offsets := last - first + 1
      if first < 1 ∨ first > 99 then none
      else if last < first ∨ last > 99 then none
      else if (vals.length : Int) ≠ 2 + expected_offsets + 1 then none
      else if vals.any (· < 0) then none
      else
        let leadout := vals.getD (vals.length - 1) 0 - PREGAP_FRAMES
        let offs := ((vals.drop 2).take expected_offsets.toNat).map (· - PREGAP_FRAMES)
        if !strictlyAscending offs then none
        else if leadout ≤ offs.getLastD 0 then none
        else some
          { first_track := first, last_track := last, track_count := expected_offsets.toNat,
            audio_count := expected_offsets.toNat, data_count := 0,
            leadout := leadout, audio_leadout := leadout, last_session := 1,
            tracks := mkTracksGo (fun _ => .audio) first offs (computeLengths offs leadout) }

/-- `toc_parse_raw` from `toc.c`. -/
def toc_parse_raw (input : String) : Option Toc :=
  (parse_integers input (MAX_TRACKS + 4)).bind toc_parse_raw_vals

/-- The value-level body of `toc_parse_musicbrainz`: `first last leadout
offset1...offsetN`, all values frame counts (raw LBA + 150). -/
def toc_parse_musicbrainz_vals (vals : List Int) : Option Toc :=
    if vals.length < 4 then none
    else
      let first := vals.getD 0 0
      let last := vals.getD 1 0
      let leadout0 := vals.getD 2 0
      let expected_offsets := last - first + 1
      if first < 1 ∨ first > 99 then none
      else if last < first ∨ last > 99 then none
      else if (vals.length : Int) ≠ 3 + expected_offsets then none
      else if vals.any (· < 0) then none
      else
        let leadout := leadout0 - PREGAP_FRAMES
        let offs := ((vals.drop 3).take expected_offsets.toNat).map (· - PREGAP_FRAMES)
        if !strictlyAscending offs then none
        else if leadout ≤ offs.getLastD 0 then none
        else some
          { first_track := first, last_track := last, track_count := expected_offsets.toNat,
            audio_count := expected_offsets.toNat, data_count := 0,
            leadout := leadout, audio_leadout := leadout, last_session := 1,
            tracks := mkTracksGo (fun _ => .audio) first offs (computeLengths offs leadout) }

/-- `toc_parse_musicbrainz` from `toc.c`. -/
def toc_parse_musicbrainz (input : String) : Option Toc :=
  (parse_integers input (MAX_TRACKS + 4)).bind toc_parse_musicbrainz_vals

/-- The track-type rule of `toc_parse_accuraterip`: standard discs are
all audio, Mixed Mode marks the tracks before `first_audio` as data,
Enhanced marks the tracks after `audio_count` as data. -/
def arTrackType (track_count audio_count first_audio track_num : Int) : TrackType :=
  if audio_count = track_count then .audio
  else if first_audio > 1 then (if track_num < first_audio then .data else .audio)
  else (if track_num ≤ audio_count then .audio else .data)

/-- The value-level body of `toc_parse_accuraterip`: `count audio first
offset1...offsetN leadout`, offsets in raw (0-based) LBA. -/
def toc_parse_accuraterip_vals (vals : List Int) : Option Toc :=
    if vals.length < 5 then none
    else
      let track_count := vals.getD 0 0
      let audio_count := vals.getD 1 0
      let first_audio := vals.getD 2 0
      if track_count < 1 ∨ track_count > 99 then none
      else if audio_count < 0 ∨ audio_count > track_count then none
      else if first_audio < 1 ∨ first_audio > 99 then none
      else if vals.any (· < 0) then none
      else if (vals.length : Int) ≠ 3 + track_count + 1 then none
      else
        let leadout := vals.getD (3 + track_count.toNat) 0
        let offs := (vals.drop 3).take track_count.toNat
        if !strictlyAscending offs then none
        else if leadout ≤ offs.getLastD 0 then none
        else some
          { first_track := 1, last_track := track_count, track_count := track_count.toNat,
            audio_count := audio_count.toNat, data_count := (track_count - audio_count).toNat,
            leadout := leadout, audio_leadout := leadout, last_session := 1,
            tracks := mkTracksGo (arTrackType track_count audio_count first_audio) 1 offs
              (computeLengths offs leadout) }

/-- `toc_parse_accuraterip` from `toc.c`. -/
def toc_parse_accuraterip (input : String) : Option Toc :=
  (parse_integers input (MAX_TRACKS + 5)).bind toc_parse_accuraterip_vals

/-- The value-level body of `toc_parse_freedb`: `count offset1...offsetN
total_seconds`, offsets with the +150 pregap; the leadout is recomputed
from `total_seconds` (note: unlike the other three parsers, no
`leadout > last offset` check is performed). -/
def toc_parse_freedb_vals (vals : List Int) : Option Toc :=
    if vals.length < 3 then none
    else
      let track_count := vals.getD 0 0
      if track_count < 1 ∨ track_count > 99 then none
      else if vals.any (· < 0) then none
      else if (vals.length : Int) ≠ 1 + track_count + 1 then none
      else
        let total_seconds := vals.getD (1 + track_count.toNat) 0
        let offs := ((vals.drop 1).take track_count.toNat).map (· - PREGAP_FRAMES)
        if !strictlyAscending offs then none
        else
          let leadout := total_seconds * FRAMES_PER_SECOND - PREGAP_FRAMES
          some
            { first_track := 1, last_track := track_count, track_count := track_count.toNat,
              audio_count := track_count.toNat, data_count := 0,
              leadout := leadout, audio_leadout := leadout, last_session := 1,
              tracks := mkTracksGo (fun _ => .audio) 1 offs (computeLengths offs leadout) }

/-- `toc_parse_freedb` from `toc.c`. -/
def toc_parse_freedb (input : String) : Option Toc :=
  (parse_integers input (MAX_TRACKS + 3)).bind toc_parse_freedb_vals

/-- `toc_validate` from `toc.c` (`true` = the `0` return, `false` =
`EX_DATAERR`): track-number ranges, positive leadout, strictly ascending
offsets and the leadout after the last track. -/
def toc_validate (toc : Toc) : Bool :=
  decide (1 ≤ toc.first_track) && decide (toc.first_track ≤ 99)
    && decide (toc.first_track ≤ toc.last_track) && decide (toc.last_track ≤ 99)
    && decide (1 ≤ toc.track_count)
    && decide (0 < toc.leadout)
    && strictlyAscending (toc.tracks.map Track.offset)
    && decide ((toc.tracks.getLastD zeroTrack).offset < toc.leadout)

/-! ## `toc.c`: helpers and the four dialect renderers -/

/-- Scan for the first audio track number (`toc_get_first_audio_track`). -/
def firstAudioGo : List Track → Int
  | [] => 0
  | tr :: rest => if tr.type = TrackType.audio then tr.number else firstAudioGo rest

def toc_get_first_audio_track (toc : Toc) : Int := firstAudioGo toc.tracks

/-- Scan from the end for the last audio track number
(`toc_get_last_audio_track`). -/
def toc_get_last_audio_track (toc : Toc) : Int := firstAudioGo toc.tracks.reverse

/-- Single-space joining used by the `snprintf`-based renderers. -/
def joinTokens : List (List Char) → List Char
  | [] => []
  | [t] => t
  | t :: ts => t ++ ' ' :: joinTokens ts

/-- `"%d %d ... %d"` rendering of an integer list. -/
def renderInts (vs : List Int) : String := ⟨joinTokens (vs.map (fun v => (intRepr v).data))⟩

/-- `toc_format_raw` from `toc.c`: `first last offset1...offsetN leadout`
with the +150 pregap re-added. -/
def toc_format_raw (toc : Toc) : String :=
  renderInts ([toc.first_track, toc.last_track]
    ++ toc.tracks.map (fun tr => tr.offset + PREGAP_FRAMES) ++ [toc.leadout + PREGAP_FRAMES])

/-- `toc_format_musicbrainz` from `toc.c`: `first last leadout
offset1...offsetN`; Enhanced CDs drop their trailing data tracks and use
the audio-session leadout. -/
def toc_format_musicbrainz (toc : Toc) : String :=
  let last_audio := toc_get_last_audio_track toc
  let is_enhanced_cd := decide (last_audio > 0) && decide (last_audio < toc.last_track)
  let last_track := if is_enhanced_cd then last_audio else toc.last_track
  let leadout := if is_enhanced_cd then toc.audio_leadout else toc.leadout
  renderInts ([toc.first_track, last_track, leadout + PREGAP_FRAMES]
    ++ (toc.tracks.filter (fun tr =>
          decide (toc.first_track ≤ tr.number) && decide (tr.number ≤ last_track))).map
        (fun tr => tr.offset + PREGAP_FRAMES))

/-- `toc_format_accuraterip` from `toc.c`: `count audio first
offset1...offsetN leadout` in raw LBA. -/
def toc_format_accuraterip (toc : Toc) : String :=
  let first_audio0 := toc_get_first_audio_track toc
  let first_audio := if first_audio0 = 0 then toc.first_track else first_audio0
  renderInts ([(toc.track_count : Int), (toc.audio_count : Int), first_audio]
    ++ toc.tracks.map (fun tr => tr.offset) ++ [toc.leadout])

/-- `toc_format_freedb` from `toc.c`: `count offset1...offsetN
total_seconds` with the +150 pregap re-added and the leadout converted to
whole seconds. -/
def toc_format_freedb (toc : Toc) : String :=
  renderInts ([(toc.track_count : Int)] ++ toc.tracks.map (fun tr => tr.offset + PREGAP_FRAMES)
    ++ [(toc.leadout + PREGAP_FRAMES).tdiv FRAMES_PER_SECOND])

/-! ## `toc.c`: `toc_detect_format` -/

inductive TocFormat where
  | raw
  | musicbrainz
  | accuraterip
  | freedb
  | invalid
  | indeterminate
deriving DecidableEq, Repr, Inhabited

/-- `toc_detect_result_t`: the detected format plus an error message. -/
structure TocDetectResult where
  format : TocFormat
  error : Option String
deriving DecidableEq, Repr, Inhabited

/-- `toc_detect_format` from `toc.c`.  The element-count formulas select
the candidate families, family-specific sanity tests break ties, and the
surviving family's own checks run last. -/
def toc_detect_format (input : String) : TocDetectResult :=
  match parse_integers input (MAX_TRACKS + 10) with
  | none => ⟨.invalid, some "toc: non-numeric value"⟩
  | some vals =>
    if vals.length < 3 then ⟨.invalid, some "toc: too few values"⟩
    else
      match vals.find? (fun v => decide (v < 0) || decide (v > MAX_CD_FRAMES)) with
      | some v =>
        if v < 0 then ⟨.invalid, some "toc: value cannot be negative"⟩
        else ⟨.invalid, some "toc: value exceeds CD capacity"⟩
      | none =>
        let count : Int := vals.length
        let v0 := vals.getD 0 0
        let v1 := vals.getD 1 0
        let fd_match := v0 + 2 == count
        let ar_match := v0 + 4 == count
        let raw_mb_match := decide (count ≥ 4) && decide (v1 ≥ v0) && decide (v1 ≤ 99)
          && decide (v0 ≥ 1) && ((v1 - v0 + 1) + 3 == count)
        let matches1 := (if fd_match then 1 else 0) + (if ar_match then 1 else 0)
          + (if raw_mb_match then 1 else 0)
        if matches1 == 0 then ⟨.invalid, some "toc: format not recognized"⟩
        else
          let last_val := vals.getD (vals.length - 1) 0
          let second_last := vals.getD (vals.length - 2) 0
          let ar_match2 :=
            if decide (matches1 > 1) && ar_match && raw_mb_match then
              (if v0 < 1 ∨ v0 > 99 ∨ v1 < 0 ∨ v1 > v0 ∨ vals.getD 2 0 < 1 ∨ vals.getD 2 0 > v0
               then false else ar_match)
            else ar_match
          let fdraw := decide (matches1 > 1) && fd_match && raw_mb_match
          let secWindow := decide (last_val < 6000) && decide (last_val > 0)
          let diff := last_val - second_last.tdiv FRAMES_PER_SECOND
          let inWindow := decide (-2 ≤ diff) && decide (diff ≤ 100)
          let fd_match2 :=
            if fdraw then (if secWindow then inWindow else false) else fd_match
          let raw_mb_match2 :=
            if fdraw then (if secWindow then (if inWindow then false else raw_mb_match)
              else raw_mb_match)
            else raw_mb_match
          let matches2 := (if fd_match2 then 1 else 0) + (if ar_match2 then 1 else 0)
            + (if raw_mb_match2 then 1 else 0)
          if decide (matches1 > 1) && decide (matches2 > 1) then
            ⟨.indeterminate, some "toc: format is ambiguous"⟩
          else if fd_match2 then
            if v0 < 1 ∨ v0 > 99 then ⟨.invalid, some "toc: track count out of range"⟩
            else if last_val ≤ 0 then ⟨.invalid, some "toc: total seconds out of range"⟩
            else if !strictlyAscending ((vals.drop 1).take (vals.length - 2)) then
              ⟨.invalid, some "toc: offsets not in ascending order"⟩
            else ⟨.freedb, none⟩
          else if ar_match2 then
            if v0 < 1 ∨ v0 > 99 then ⟨.invalid, some "toc: track count out of range"⟩
            else if v1 < 0 ∨ v1 > v0 then ⟨.invalid, some "toc: audio count out of range"⟩
            else if vals.getD 2 0 < 1 ∨ vals.getD 2 0 > v0 then
              ⟨.invalid, some "toc: first audio track out of range"⟩
            else if !strictlyAscending ((vals.drop 3).take (vals.length - 4)) then
              ⟨.invalid, some "toc: offsets not in ascending order"⟩
            else if last_val ≤ second_last then ⟨.invalid, some "toc: leadout before last track"⟩
            else ⟨.accuraterip, none⟩
          else if raw_mb_match2 then
            if v0 < 1 ∨ v0 > 99 then ⟨.invalid, some "toc: first track out of range"⟩
            else if v1 < v0 ∨ v1 > 99 then ⟨.invalid, some "toc: last track out of range"⟩
            else if vals.getD 2 0 > last_val then
              if !strictlyAscending ((vals.drop 3).take (vals.length - 3)) then
                ⟨.invalid, some "toc: offsets not in ascending order"⟩
              else if vals.getD 2 0 ≤ last_val then
                ⟨.invalid, some "toc: leadout before last track"⟩
              else ⟨.musicbrainz, none⟩
            else
              if !strictlyAscending ((vals.drop 2).take (vals.length - 3)) then
                ⟨.invalid, some "toc: offsets not in ascending order"⟩
              else if last_val ≤ second_last then
                ⟨.invalid, some "toc: leadout before last track"⟩
              else ⟨.raw, none⟩
          else ⟨.invalid, some "toc: internal error"⟩

/-! ## Claim C3: the standard 12-track seed scenario -/

/-- The MusicBrainz TOC text of spec scenario 1. -/
def c3Input : String :=
  "1 12 198592 150 17477 32100 47997 67160 84650 93732 110667 127377 147860 160437 183097"

/-- **C3, counterexample.**  On the seed TOC text the parsed TOC's FreeDB
id is `"b10a550c"`, not the `"9a0b750c"` the claim states (the claimed
value would need `t = 0xb75 = 2933` seconds, but this TOC spans
`2647 − 2 = 2645` seconds). -/
theorem c3_freedb_id_counterexample :
    (toc_parse_musicbrainz c3Input).map calc_freedb_id = some "b10a550c" ∧
      ("b10a550c" : String) ≠ "9a0b750c" := by
  constructor
  · decide
  · decide

/-- **C3, amended.**  `toc_detect_format` reports the MusicBrainz dialect
on the seed TOC text, and `toc_parse_musicbrainz` yields a TOC with
`track_count = 12` and `audio_count = 12` whose `calc_freedb_id` result
is the string `"b10a550c"`. -/
theorem c3_scenario :
    toc_detect_format c3Input = ⟨.musicbrainz, none⟩ ∧
      (toc_parse_musicbrainz c3Input).map
        (fun t => (t.track_count, t.audio_count, calc_freedb_id t)) =
        some (12, 12, "b10a550c") := by
  constructor
  · decide
  · decide

/-! ## Claim C5: parser invariants and the FreeDB leadout gap -/

/-- The single track of the TOC that `toc_parse_freedb` returns on the
input `"1 1000 2"`. -/
def c5FreedbTrack : Track :=
  { number := 1, session := 1, type := .audio, offset := 850, length := -850, isrc := "" }

/-- The TOC that `toc_parse_freedb` returns on the input `"1 1000 2"`. -/
def c5FreedbToc : Toc :=
  { first_track := 1, last_track := 1, track_count := 1, audio_count := 1, data_count := 0,
    leadout := 0, audio_leadout := 0, last_session := 1, tracks := [c5FreedbTrack] }

/-- **C5.**  `toc_parse_freedb` accepts `"1 1000 2"` and returns a TOC
whose leadout LBA (0) is *not* strictly greater than the last track's
offset (850): unlike `toc_parse_raw`, `toc_parse_musicbrainz` and
`toc_parse_accuraterip`, the FreeDB parser never checks the leadout it
derives from `total_seconds` against the last offset, so the universal
leadout-dominance invariant fails on its output. -/
theorem toc_parse_freedb_leadout_bug :
    toc_parse_freedb "1 1000 2" = some c5FreedbToc ∧
      c5FreedbToc.leadout = 0 ∧
      (c5FreedbToc.tracks.getLastD zeroTrack).offset = 850 ∧
      ¬ c5FreedbToc.leadout > (c5FreedbToc.tracks.getLastD zeroTrack).offset := by
  refine ⟨by decide, by decide, by decide, by decide⟩

/-! ## `isrc.c`: configuration, the ISRC format gate, and the collector -/

def PROBE_COUNT : Nat := 3

def MIN_TRACKS_FOR_PROBE : Nat := 5

def MAX_CANDIDATES : Nat := 8

def INITIAL_TRANCHES : Nat := 3

def RESCUE_TRANCHES : Nat := 1

def FRAMES_PER_TRANCHE : Nat := 192

def BOOKEND_FRAMES : Int := 2 * 75

def SHORT_TRACK_THRESHOLD : Int :=
  2 * BOOKEND_FRAMES + (INITIAL_TRANCHES + RESCUE_TRANCHES + 1) * FRAMES_PER_TRANCHE

def EARLY_STOP_VALID_FRAMES : Nat := 64

def isUpperChar (c : Char) : Bool := 65 ≤ c.toNat && c.toNat ≤ 90

def isAlnumChar (c : Char) : Bool :=
  (48 ≤ c.toNat && c.toNat ≤ 57) || (65 ≤ c.toNat && c.toNat ≤ 90)
    || (97 ≤ c.toNat && c.toNat ≤ 122)

/-- `isrc_validate` from `isrc.c`: exactly 12 characters, not all zeros,
2 uppercase letters, 3 alphanumerics, then 7 digits. -/
def isrc_validate (isrc : String) : Bool :=
  let cs := isrc.data
  if cs.length ≠ 12 then false
  else if cs.all (fun c => c = '0') then false
  else if !(isUpperChar (cs.getD 0 ' ') && isUpperChar (cs.getD 1 ' ')) then false
  else if !((cs.drop 2).take 3).all isAlnumChar then false
  else if !(isDigitChar (cs.getD 5 ' ') && isDigitChar (cs.getD 6 ' ')) then false
  else ((cs.drop 7).take 5).all isDigitChar

/-- `isrc_candidate_t` from `isrc.c`. -/
structure IsrcCandidate where
  isrc : String
  count : Nat
deriving DecidableEq, Repr, Inhabited

/-- `isrc_collector_t` from `isrc.c` (`num_candidates` is the length of
`candidates`). -/
structure IsrcCollector where
  candidates : List IsrcCandidate
  total_valid : Nat
  total_read : Nat
deriving DecidableEq, Repr, Inhabited

/-- The matching loop of `collector_add`: increment the count of the
matching candidate, or report `none` when no candidate matches. -/
def bumpCandidate : List IsrcCandidate → String → Option (List IsrcCandidate)
  | [], _ => none
  | cand :: rest, s =>
    if cand.isrc = s then some ({ cand with count := cand.count + 1 } :: rest)
    else (bumpCandidate rest s).map (cand :: ·)

/-- `collector_add` from `isrc.c`: format-invalid samples are dropped;
valid ones bump `total_valid`, then bump a matching candidate or append a
new one while fewer than `MAX_CANDIDATES` are stored. -/
def collector_add (c : IsrcCollector) (isrc : String) : IsrcCollector :=
  if !isrc_validate isrc then c
  else
    let c1 : IsrcCollector := { c with total_valid := c.total_valid + 1 }
    match bumpCandidate c1.candidates isrc with
    | some l => { c1 with candidates := l }
    | none =>
      if c1.candidates.length < MAX_CANDIDATES then
        { c1 with candidates := c1.candidates ++ [⟨isrc, 1⟩] }
      else c1

/-- The max-scan loop of `collector_get_majority` (index `i`, best index
`bi`, best count `bc`). -/
def scanMaxGo : List IsrcCandidate → Nat → Nat → Nat → Nat × Nat
  | [], _, bi, bc => (bi, bc)
  | cand :: rest, i, bi, bc =>
    if cand.count > bc then scanMaxGo rest (i + 1) i cand.count
    else scanMaxGo rest (i + 1) bi bc

/-- The second-max loop of `collector_get_majority` (skips index `mi`). -/
def secondMaxGo : List IsrcCandidate → Nat → Nat → Nat → Nat
  | [], _, _, s => s
  | cand :: rest, i, mi, s =>
    if i ≠ mi ∧ cand.count > s then secondMaxGo rest (i + 1) mi cand.count
    else secondMaxGo rest (i + 1) mi s

/-- `collector_get_majority` from `isrc.c`: the top candidate wins iff
its count is at least 2 and at least twice the next-highest count. -/
def collector_get_majority (c : IsrcCollector) : Option String :=
  match c.candidates with
  | [] => none
  | c0 :: rest =>
    let mp := scanMaxGo rest 1 0 c0.count
    let second_max := secondMaxGo (c0 :: rest) 0 mp.1 0
    if mp.2 ≥ 2 ∧ (second_max = 0 ∨ mp.2 ≥ 2 * second_max) then
      some (((c0 :: rest).getD mp.1 ⟨"", 0⟩).isrc)
    else none

/-! ### Specification-side notions for claim C6 -/

/-- `m`: the count of the top candidate. -/
def maxCount (l : List IsrcCandidate) : Nat := (l.map (fun cand => cand.count)).foldr max 0

/-- The index of the top candidate (first index attaining `maxCount`). -/
def specTopIdx (l : List IsrcCandidate) : Nat :=
  l.findIdx (fun cand => decide (cand.count = maxCount l))

/-- Maximum candidate count over all indices other than `mi` (the index
argument counts from `i`). -/
def maxExceptShift : List IsrcCandidate → Nat → Nat → Nat
  | [], _, _ => 0
  | cand :: rest, i, mi =>
    if i = mi then maxExceptShift rest (i + 1) mi
    else max cand.count (maxExceptShift rest (i + 1) mi)

/-- `s`: the next-highest candidate count (maximum over candidates other
than the top one). -/
def specSecond (l : List IsrcCandidate) : Nat := maxExceptShift l 0 (specTopIdx l)

/-! ### Bridge lemmas for C6 -/

theorem scanMaxGo_snd (l : List IsrcCandidate) : ∀ i bi bc : Nat,
    (scanMaxGo l i bi bc).2 = max bc (maxCount l) := by
  induction l with
  | nil =>
    intro i bi bc
    show bc = max bc (maxCount [])
    have h : maxCount [] = 0 := rfl
    rw [h]
    omega
  | cons cand rest ih =>
    intro i bi bc
    have hmc : maxCount (cand :: rest) = max cand.count (maxCount rest) := rfl
    rw [hmc]
    by_cases hgt : bc < cand.count
    · rw [show scanMaxGo (cand :: rest) i bi bc = scanMaxGo rest (i + 1) i cand.count from by
        rw [scanMaxGo, if_pos hgt], ih (i + 1) i cand.count]
      omega
    · rw [show scanMaxGo (cand :: rest) i bi bc = scanMaxGo rest (i + 1) bi bc from by
        rw [scanMaxGo, if_neg hgt], ih (i + 1) bi bc]
      omega

theorem scanMaxGo_fst (l : List IsrcCandidate) : ∀ i bi bc : Nat,
    (scanMaxGo l i bi bc).1 =
      if maxCount l ≤ bc then bi
      else i + l.findIdx (fun cand => decide (cand.count = max bc (maxCount l))) := by
  induction l with
  | nil =>
    intro i bi bc
    have h : maxCount [] = 0 := rfl
    rw [h, if_pos (Nat.zero_le bc)]
    rfl
  | cons cand rest ih =>
    intro i bi bc
    have hmc : maxCount (cand :: rest) = max cand.count (maxCount rest) := rfl
    by_cases hgt : bc < cand.count
    · rw [show scanMaxGo (cand :: rest) i bi bc = scanMaxGo rest (i + 1) i cand.count from by
        rw [scanMaxGo, if_pos hgt], ih (i + 1) i cand.count, hmc,
        if_neg (by omega : ¬ max cand.count (maxCount rest) ≤ bc),
        show max bc (max cand.count (maxCount rest)) = max cand.count (maxCount rest) from by
          omega,
        List.findIdx_cons]
      by_cases hA : maxCount rest ≤ cand.count
      · have hpt : (decide (cand.count = max cand.count (maxCount rest))) = true := by
          simp
          omega
        rw [if_pos hA, hpt]
        rfl
      · have hpf : (decide (cand.count = max cand.count (maxCount rest))) = false := by
          simp
          omega
        rw [if_neg hA, hpf]
        show (i + 1) + _ = i + _
        rw [Bool.cond_false]
        generalize List.findIdx (fun cand => decide (cand.count = max cand.count (maxCount rest)))
          rest = J
        omega
    · rw [show scanMaxGo (cand :: rest) i bi bc = scanMaxGo rest (i + 1) bi bc from by
        rw [scanMaxGo, if_neg hgt], ih (i + 1) bi bc, hmc]
      by_cases hB : maxCount rest ≤ bc
      · rw [if_pos hB, if_pos (by omega : max cand.count (maxCount rest) ≤ bc)]
      · rw [if_neg hB, if_neg (by omega : ¬ max cand.count (maxCount rest) ≤ bc),
          show max bc (max cand.count (maxCount rest)) = max bc (maxCount rest) from by omega,
          List.findIdx_cons]
        have hpf : (decide (cand.count = max bc (maxCount rest))) = false := by
          simp
          omega
        rw [hpf, Bool.cond_false]
        generalize List.findIdx (fun cand => decide (cand.count = max bc (maxCount rest))) rest = J
        omega

theorem secondMaxGo_spec (l : List IsrcCandidate) : ∀ i mi s : Nat,
    secondMaxGo l i mi s = max s (maxExceptShift l i mi) := by
  induction l with
  | nil =>
    intro i mi s
    show s = max s (maxExceptShift [] i mi)
    have h : maxExceptShift [] i mi = 0 := rfl
    rw [h]
    omega
  | cons cand rest ih =>
    intro i mi s
    by_cases heq : i = mi
    · rw [show secondMaxGo (cand :: rest) i mi s = secondMaxGo rest (i + 1) mi s from by
        rw [secondMaxGo, if_neg (by simp [heq])], ih (i + 1) mi s,
        show maxExceptShift (cand :: rest) i mi = maxExceptShift rest (i + 1) mi from by
          rw [maxExceptShift, if_pos heq]]
    · rw [show maxExceptShift (cand :: rest) i mi
          = max cand.count (maxExceptShift rest (i + 1) mi) from by
        rw [maxExceptShift, if_neg heq]]
      by_cases hgt : s < cand.count
      · rw [show secondMaxGo (cand :: rest) i mi s = secondMaxGo rest (i + 1) mi cand.count from by
          rw [secondMaxGo, if_pos ⟨heq, hgt⟩], ih (i + 1) mi cand.count]
        generalize maxExceptShift rest (i + 1) mi = X
        omega
      · rw [show secondMaxGo (cand :: rest) i mi s = secondMaxGo rest (i + 1) mi s from by
          rw [secondMaxGo, if_neg (by
            intro hcon
            exact hgt hcon.2)], ih (i + 1) mi s]
        generalize maxExceptShift rest (i + 1) mi = X
        omega

/-- **C6.**  For every non-empty collector, `collector_get_majority`
returns the top ISRC candidate if and only if its count `m = maxCount`
satisfies `m ≥ 2` and either no second candidate exists
(`specSecond = 0`) or `m ≥ 2 * specSecond`; consequently, when exactly
two distinct ISRCs have been collected in equal nonzero proportion, no
winner is returned. -/
theorem collector_get_majority_rule (c : IsrcCollector) (hne : c.candidates ≠ []) :
    (collector_get_majority c =
        if maxCount c.candidates ≥ 2 ∧
            (specSecond c.candidates = 0 ∨
              maxCount c.candidates ≥ 2 * specSecond c.candidates) then
          some ((c.candidates.getD (specTopIdx c.candidates) ⟨"", 0⟩).isrc)
        else none) ∧
      ∀ a b k, 1 ≤ k → a ≠ b → c.candidates = [⟨a, k⟩, ⟨b, k⟩] →
        collector_get_majority c = none := by
  obtain ⟨c0, rest, hl⟩ : ∃ c0 rest, c.candidates = c0 :: rest := by
    cases h : c.candidates with
    | nil => exact absurd h hne
    | cons a r => exact ⟨a, r, rfl⟩
  have hmc : maxCount (c0 :: rest) = max c0.count (maxCount rest) := rfl
  have hu : collector_get_majority c =
      (if (scanMaxGo rest 1 0 c0.count).2 ≥ 2 ∧
          (secondMaxGo (c0 :: rest) 0 (scanMaxGo rest 1 0 c0.count).1 0 = 0 ∨
            (scanMaxGo rest 1 0 c0.count).2 ≥
              2 * secondMaxGo (c0 :: rest) 0 (scanMaxGo rest 1 0 c0.count).1 0) then
        some (((c0 :: rest).getD (scanMaxGo rest 1 0 c0.count).1 ⟨"", 0⟩).isrc)
      else none) := by
    unfold collector_get_majority
    rw [hl]
  have h2 : (scanMaxGo rest 1 0 c0.count).2 = maxCount (c0 :: rest) := by
    rw [scanMaxGo_snd rest 1 0 c0.count, hmc]
  have h1 : (scanMaxGo rest 1 0 c0.count).1 = specTopIdx (c0 :: rest) := by
    rw [scanMaxGo_fst rest 1 0 c0.count]
    unfold specTopIdx
    rw [List.findIdx_cons]
    by_cases hA : maxCount rest ≤ c0.count
    · have hM : maxCount (c0 :: rest) = c0.count := by rw [hmc]; omega
      have hpt : (decide (c0.count = maxCount (c0 :: rest))) = true := by simp [hM]
      rw [if_pos hA, hpt]
      rfl
    · have hdf : (decide (c0.count = maxCount (c0 :: rest))) = false := by
        simp [hmc]
        omega
      rw [if_neg hA, hdf, ← hmc, Bool.cond_false]
      generalize List.findIdx (fun cand => decide (cand.count = maxCount (c0 :: rest))) rest = J
      omega
  have hsec : secondMaxGo (c0 :: rest) 0 (specTopIdx (c0 :: rest)) 0
      = specSecond (c0 :: rest) := by
    rw [secondMaxGo_spec (c0 :: rest) 0 (specTopIdx (c0 :: rest)) 0]
    unfold specSecond
    omega
  have hmain : collector_get_majority c =
      if maxCount c.candidates ≥ 2 ∧
          (specSecond c.candidates = 0 ∨
            maxCount c.candidates ≥ 2 * specSecond c.candidates) then
        some ((c.candidates.getD (specTopIdx c.candidates) ⟨"", 0⟩).isrc)
      else none := by
    rw [hu, h1, hsec, h2, ← hl]
  refine ⟨hmain, ?_⟩
  intro a b k hk hab hcand
  have hmaxc : maxCount [(⟨a, k⟩ : IsrcCandidate), ⟨b, k⟩] = k := by
    show max k (max k 0) = k
    omega
  have htop : specTopIdx [(⟨a, k⟩ : IsrcCandidate), ⟨b, k⟩] = 0 := by
    unfold specTopIdx
    rw [List.findIdx_cons]
    have hpt : (decide ((⟨a, k⟩ : IsrcCandidate).count
        = maxCount [(⟨a, k⟩ : IsrcCandidate), ⟨b, k⟩])) = true := by
      simp [hmaxc]
    rw [hpt]
    rfl
  have hsec2 : specSecond [(⟨a, k⟩ : IsrcCandidate), ⟨b, k⟩] = k := by
    unfold specSecond
    rw [htop]
    show max k 0 = k
    omega
  rw [hmain, hcand, hmaxc, hsec2, if_neg (by omega)]

/-- A concrete collector for the C6 witness: top count 4, second count 2. -/
def c6Collector : IsrcCollector :=
  { candidates := [⟨"USRC17607839", 4⟩, ⟨"GBAYE6600101", 2⟩], total_valid := 6, total_read := 8 }

theorem collector_get_majority_rule_witness :
    c6Collector.candidates ≠ [] ∧
      ((collector_get_majority c6Collector =
          if maxCount c6Collector.candidates ≥ 2 ∧
              (specSecond c6Collector.candidates = 0 ∨
                maxCount c6Collector.candidates ≥ 2 * specSecond c6Collector.candidates) then
            some ((c6Collector.candidates.getD (specTopIdx c6Collector.candidates) ⟨"", 0⟩).isrc)
          else none) ∧
        ∀ a b k, 1 ≤ k → a ≠ b → c6Collector.candidates = [⟨a, k⟩, ⟨b, k⟩] →
          collector_get_majority c6Collector = none) :=
  ⟨by decide, collector_get_majority_rule c6Collector (by decide)⟩

/-! ### Bridge lemmas for C9 -/

theorem bumpCandidate_none (l : List IsrcCandidate) (s : String)
    (h : ∀ cand ∈ l, cand.isrc ≠ s) : bumpCandidate l s = none := by
  induction l with
  | nil => rfl
  | cons cand rest ih =>
    rw [bumpCandidate, if_neg (h cand (List.mem_cons_self cand rest)),
      ih (fun x hx => h x (List.mem_cons_of_mem cand hx))]
    rfl

theorem getD_mem_or_default (l : List IsrcCandidate) (i : Nat) (d : IsrcCandidate) :
    l.getD i d ∈ l ∨ l.getD i d = d := by
  induction l generalizing i with
  | nil =>
    right
    cases i <;> rfl
  | cons a rest ih =>
    cases i with
    | zero => left; exact List.mem_cons_self a rest
    | succ j =>
      have hstep : (a :: rest).getD (j + 1) d = rest.getD j d := rfl
      rcases ih j with h | h
      · left
        rw [hstep]
        exact List.mem_cons_of_mem a h
      · right
        rw [hstep]
        exact h

theorem collector_get_majority_mem (c : IsrcCollector) (r : String)
    (h : collector_get_majority c = some r) :
    (∃ cand ∈ c.candidates, cand.isrc = r) ∨ r = "" := by
  obtain ⟨cands, tv, tr⟩ := c
  cases hl : cands with
  | nil =>
    subst hl
    cases h
  | cons c0 rest =>
    subst hl
    simp only [collector_get_majority] at h
    split at h
    · have hr := Option.some.inj h
      rcases getD_mem_or_default (c0 :: rest) (scanMaxGo rest 1 0 c0.count).1 ⟨"", 0⟩
        with hm | hd
      · left
        exact ⟨_, hm, hr⟩
      · right
        rw [← hr, hd]
    · cases h

/-- **C9.**  When `collector_add` receives a format-valid ISRC while the
collector already holds `MAX_CANDIDATES` (8) distinct ISRCs none of which
matches it, the sample still increments `total_valid` but the new ISRC is
silently discarded: the candidate list is unchanged, the new ISRC can
never be the majority winner, and `total_valid` comes to strictly exceed
the sum of all stored candidate counts. -/
theorem collector_add_at_capacity (c : IsrcCollector) (s : String)
    (hval : isrc_validate s = true)
    (hfull : c.candidates.length = MAX_CANDIDATES)
    (hnew : ∀ cand ∈ c.candidates, cand.isrc ≠ s) :
    (collector_add c s).candidates = c.candidates ∧
      (collector_add c s).total_valid = c.total_valid + 1 ∧
      (∀ r, collector_get_majority (collector_add c s) = some r → r ≠ s) ∧
      ((c.candidates.map (fun cand => cand.count)).sum ≤ c.total_valid →
        ((collector_add c s).candidates.map (fun cand => cand.count)).sum
          < (collector_add c s).total_valid) := by
  have hsne : s ≠ "" := by
    intro hs
    rw [hs] at hval
    exact absurd hval (by decide)
  have hadd : collector_add c s = { c with total_valid := c.total_valid + 1 } := by
    simp only [collector_add, hval, Bool.not_true, Bool.false_eq_true, if_false,
      bumpCandidate_none c.candidates s hnew, hfull]
    rw [if_neg (by omega)]
  refine ⟨by rw [hadd], by rw [hadd], ?_, ?_⟩
  · intro r hr hrs
    subst hrs
    rcases collector_get_majority_mem _ _ hr with ⟨cand, hmem, hisrc⟩ | hemp
    · rw [hadd] at hmem
      exact hnew cand hmem hisrc
    · exact hsne hemp
  · intro hle
    rw [hadd]
    show ((c.candidates.map (fun cand => cand.count)).sum < c.total_valid + 1)
    omega

/-- A concrete full collector (8 distinct candidates) for the C9 witness. -/
def c9Collector : IsrcCollector :=
  { candidates :=
      [⟨"USRC17607801", 1⟩, ⟨"USRC17607802", 1⟩, ⟨"USRC17607803", 1⟩, ⟨"USRC17607804", 1⟩,
       ⟨"USRC17607805", 1⟩, ⟨"USRC17607806", 1⟩, ⟨"USRC17607807", 1⟩, ⟨"USRC17607808", 1⟩],
    total_valid := 8, total_read := 9 }

theorem collector_add_at_capacity_witness :
    isrc_validate "GBAYE6600101" = true ∧
      c9Collector.candidates.length = MAX_CANDIDATES ∧
      (∀ cand ∈ c9Collector.candidates, cand.isrc ≠ "GBAYE6600101") ∧
      ((collector_add c9Collector "GBAYE6600101").candidates = c9Collector.candidates ∧
        (collector_add c9Collector "GBAYE6600101").total_valid = c9Collector.total_valid + 1 ∧
        (∀ r, collector_get_majority (collector_add c9Collector "GBAYE6600101") = some r →
          r ≠ "GBAYE6600101") ∧
        ((c9Collector.candidates.map (fun cand => cand.count)).sum ≤ c9Collector.total_valid →
          ((collector_add c9Collector "GBAYE6600101").candidates.map
            (fun cand => cand.count)).sum
            < (collector_add c9Collector "GBAYE6600101").total_valid)) :=
  ⟨by decide, by decide, by decide,
    collector_add_at_capacity c9Collector "GBAYE6600101" (by decide) (by decide) (by decide)⟩

/-! ## `scsi_linux.c`: Q-subchannel decoding -/

/-- `q_subchannel_t` from `scsi.h`. -/
structure QSubchannel where
  control : Nat
  adr : Nat
  track : Nat
  index : Nat
  isrc : String
  mcn : String
  crc_valid : Bool
  has_isrc : Bool
  has_mcn : Bool
deriving DecidableEq, Repr, Inhabited

/-- The zeroed `q_subchannel_t` (`memset` at the start of
`decode_q_buffer`). -/
def zeroQ : QSubchannel :=
  { control := 0, adr := 0, track := 0, index := 0, isrc := "", mcn := "",
    crc_valid := false, has_isrc := false, has_mcn := false }

/-- `decode_isrc_char` from `scsi_linux.c`: 6-bit packed character
decoding (`0 → '0'`, `1..9 → '1'..'9'`, `17..42 → 'A'..'Z'`, anything
else → `'?'`). -/
def decode_isrc_char (c0 : Nat) : Char :=
  let c := c0 &&& 0x3F
  if c = 0 then '0'
  else if 1 ≤ c ∧ c ≤ 9 then Char.ofNat (48 + c)
  else if 17 ≤ c ∧ c ≤ 42 then Char.ofNat (65 + (c - 17))
  else '?'

/-- `decode_q_buffer` from `scsi_linux.c`: decodes one 16-byte formatted
Q-subchannel buffer (byte `i` is `buf.getD i 0`). -/
def decode_q_buffer (buf : List Nat) : QSubchannel :=
  let b := fun i => buf.getD i 0
  let control := (b 0 >>> 4) &&& 0x0F
  let adr := b 0 &&& 0x0F
  let crc_valid := decide (b 0 ≠ 0) || decide (b 1 ≠ 0)
  let mcnChars : List Char :=
    [Char.ofNat (48 + ((b 1 >>> 4) &&& 0x0F)), Char.ofNat (48 + (b 1 &&& 0x0F)),
     Char.ofNat (48 + ((b 2 >>> 4) &&& 0x0F)), Char.ofNat (48 + (b 2 &&& 0x0F)),
     Char.ofNat (48 + ((b 3 >>> 4) &&& 0x0F)), Char.ofNat (48 + (b 3 &&& 0x0F)),
     Char.ofNat (48 + ((b 4 >>> 4) &&& 0x0F)), Char.ofNat (48 + (b 4 &&& 0x0F)),
     Char.ofNat (48 + ((b 5 >>> 4) &&& 0x0F)), Char.ofNat (48 + (b 5 &&& 0x0F)),
     Char.ofNat (48 + ((b 6 >>> 4) &&& 0x0F)), Char.ofNat (48 + (b 6 &&& 0x0F)),
     Char.ofNat (48 + ((b 7 >>> 4) &&& 0x0F))]
  let isrcChars : List Char :=
    [decode_isrc_char (b 1 >>> 2),
     decode_isrc_char (((b 1 &&& 0x03) <<< 4) ||| (b 2 >>> 4)),
     decode_isrc_char (((b 2 &&& 0x0F) <<< 2) ||| (b 3 >>> 6)),
     decode_isrc_char (b 3 &&& 0x3F),
     decode_isrc_char (b 4 >>> 2),
     Char.ofNat (48 + ((b 5 >>> 4) &&& 0x0F)), Char.ofNat (48 + (b 5 &&& 0x0F)),
     Char.ofNat (48 + ((b 6 >>> 4) &&& 0x0F)), Char.ofNat (48 + (b 6 &&& 0x0F)),
     Char.ofNat (48 + ((b 7 >>> 4) &&& 0x0F)), Char.ofNat (48 + (b 7 &&& 0x0F)),
     Char.ofNat (48 + ((b 8 >>> 4) &&& 0x0F))]
  if adr = 1 then
    { zeroQ with
      control := control, adr := adr, crc_valid := crc_valid, track := b 1, index := b 2 }
  else if adr = 2 then
    { zeroQ with
      control := control, adr := adr, crc_valid := crc_valid, mcn := ⟨mcnChars⟩,
      has_mcn := true }
  else if adr = 3 then
    { zeroQ with
      control := control, adr := adr, crc_valid := crc_valid, isrc := ⟨isrcChars⟩,
      has_isrc := true }
  else
    { zeroQ with control := control, adr := adr, crc_valid := crc_valid }

/-! ### Bridge lemmas for C10 -/

theorem isrc_validate_len12 (s : String) (h : isrc_validate s = true) : s.data.length = 12 := by
  by_contra hne
  have hfalse : isrc_validate s = false := by
    simp only [isrc_validate]
    rw [if_pos hne]
  rw [hfalse] at h
  cases h

theorem isrc_validate_all_alnum (s : String) (h : isrc_validate s = true) :
    ∀ c ∈ s.data, isAlnumChar c = true := by
  have hlen := isrc_validate_len12 s h
  obtain ⟨cs⟩ := s
  have hlen' : cs.length = 12 := hlen
  rcases cs with _ | ⟨a0, cs⟩; · simp at hlen'
  rcases cs with _ | ⟨a1, cs⟩; · simp at hlen'
  rcases cs with _ | ⟨a2, cs⟩; · simp at hlen'
  rcases cs with _ | ⟨a3, cs⟩; · simp at hlen'
  rcases cs with _ | ⟨a4, cs⟩; · simp at hlen'
  rcases cs with _ | ⟨a5, cs⟩; · simp at hlen'
  rcases cs with _ | ⟨a6, cs⟩; · simp at hlen'
  rcases cs with _ | ⟨a7, cs⟩; · simp at hlen'
  rcases cs with _ | ⟨a8, cs⟩; · simp at hlen'
  rcases cs with _ | ⟨a9, cs⟩; · simp at hlen'
  rcases cs with _ | ⟨a10, cs⟩; · simp at hlen'
  rcases cs with _ | ⟨a11, cs⟩; · simp at hlen'
  rcases cs with _ | ⟨a12, cs⟩
  · simp only [isrc_validate] at h
    split at h
    · cases h
    · split at h
      · cases h
      · split at h
        · cases h
        · split at h
          · cases h
          · split at h
            · cases h
            · rename_i h1 h2 h3 h4 h5
              simp only [Bool.not_eq_true', Bool.not_eq_false] at h3 h4 h5
              simp at h h3 h4 h5
              intro c hc
              simp only [List.mem_cons, List.not_mem_nil, or_false] at hc
              have hup : ∀ x : Char, isUpperChar x = true → isAlnumChar x = true := by
                intro x hx
                simp only [isUpperChar, Bool.and_eq_true, decide_eq_true_eq] at hx
                simp only [isAlnumChar, Bool.or_eq_true, Bool.and_eq_true, decide_eq_true_eq]
                omega
              have hdig : ∀ x : Char, isDigitChar x = true → isAlnumChar x = true := by
                intro x hx
                simp only [isDigitChar, Bool.and_eq_true, decide_eq_true_eq] at hx
                simp only [isAlnumChar, Bool.or_eq_true, Bool.and_eq_true, decide_eq_true_eq]
                omega
              rcases hc with rfl | rfl | rfl | rfl | rfl | rfl | rfl | rfl | rfl | rfl | rfl
                | rfl
              · exact hup _ h3.1
              · exact hup _ h3.2
              · exact h4.1
              · exact h4.2.1
              · exact h4.2.2
              · exact hdig _ h5.1
              · exact hdig _ h5.2
              · exact hdig _ h.1
              · exact hdig _ h.2.1
              · exact hdig _ h.2.2.1
              · exact hdig _ h.2.2.2.1
              · exact hdig _ h.2.2.2.2
  · simp at hlen'

/-- **C10.**  For every 16-byte formatted-Q buffer whose ADR nibble is 3,
`decode_q_buffer` sets `has_isrc` and fills a 12-character ISRC string
unconditionally; `decode_isrc_char` maps every 6-bit value outside
`{0, 1..9, 17..42}` to `'?'` instead of signalling invalidity, and
rejection of such malformed ISRCs happens only downstream: any
12-character string containing `'?'` fails `isrc_validate`. -/
theorem decode_q_buffer_adr3 (buf : List Nat) (h : buf.getD 0 0 &&& 0x0F = 3) :
    (decode_q_buffer buf).has_isrc = true ∧
      (decode_q_buffer buf).isrc.length = 12 ∧
      (∀ v : Nat, ¬ (v &&& 0x3F = 0 ∨ (1 ≤ v &&& 0x3F ∧ v &&& 0x3F ≤ 9) ∨
          (17 ≤ v &&& 0x3F ∧ v &&& 0x3F ≤ 42)) → decode_isrc_char v = '?') ∧
      (∀ s : String, '?' ∈ s.data → isrc_validate s = false) := by
  have hq : ∀ P : QSubchannel → Prop,
      P { zeroQ with
            control := (buf.getD 0 0 >>> 4) &&& 0x0F, adr := buf.getD 0 0 &&& 0x0F,
            crc_valid := decide (buf.getD 0 0 ≠ 0) || decide (buf.getD 1 0 ≠ 0),
            isrc := ⟨[decode_isrc_char (buf.getD 1 0 >>> 2),
              decode_isrc_char (((buf.getD 1 0 &&& 0x03) <<< 4) ||| (buf.getD 2 0 >>> 4)),
              decode_isrc_char (((buf.getD 2 0 &&& 0x0F) <<< 2) ||| (buf.getD 3 0 >>> 6)),
              decode_isrc_char (buf.getD 3 0 &&& 0x3F),
              decode_isrc_char (buf.getD 4 0 >>> 2),
              Char.ofNat (48 + ((buf.getD 5 0 >>> 4) &&& 0x0F)),
              Char.ofNat (48 + (buf.getD 5 0 &&& 0x0F)),
              Char.ofNat (48 + ((buf.getD 6 0 >>> 4) &&& 0x0F)),
              Char.ofNat (48 + (buf.getD 6 0 &&& 0x0F)),
              Char.ofNat (48 + ((buf.getD 7 0 >>> 4) &&& 0x0F)),
              Char.ofNat (48 + (buf.getD 7 0 &&& 0x0F)),
              Char.ofNat (48 + ((buf.getD 8 0 >>> 4) &&& 0x0F))]⟩,
            has_isrc := true } →
      P (decode_q_buffer buf) := by
    intro P hP
    unfold decode_q_buffer
    rw [if_neg (by rw [h]; omega), if_neg (by rw [h]; omega), if_pos h]
    exact hP
  refine ⟨hq (fun q => q.has_isrc = true) rfl, hq (fun q => q.isrc.length = 12) rfl, ?_, ?_⟩
  · intro v hv
    push_neg at hv
    unfold decode_isrc_char
    rw [if_neg hv.1, if_neg (by
        intro hcon
        exact absurd hcon.2 (by omega : ¬ v &&& 0x3F ≤ 9)), if_neg (by
        intro hcon
        rcases hv.2.2 hcon.1 with hgt
        omega)]
  · intro s hmem
    by_contra hcon
    have htrue : isrc_validate s = true := by
      cases hval : isrc_validate s
      · exact absurd hval hcon
      · rfl
    have := isrc_validate_all_alnum s htrue '?' hmem
    exact absurd this (by decide)

/-- A concrete ADR=3 buffer for the C10 witness (carries an invalid 6-bit
value, decoded to `'?'`). -/
def c10Buf : List Nat :=
  [0x23, 0xFF, 0xFF, 0xFF, 0xFF, 0x17, 0x60, 0x78, 0x39, 0, 0, 0, 0, 0, 0, 0]

theorem decode_q_buffer_adr3_witness :
    c10Buf.getD 0 0 &&& 0x0F = 3 ∧
      ((decode_q_buffer c10Buf).has_isrc = true ∧
        (decode_q_buffer c10Buf).isrc.length = 12 ∧
        (∀ v : Nat, ¬ (v &&& 0x3F = 0 ∨ (1 ≤ v &&& 0x3F ∧ v &&& 0x3F ≤ 9) ∨
            (17 ≤ v &&& 0x3F ∧ v &&& 0x3F ≤ 42)) → decode_isrc_char v = '?') ∧
        (∀ s : String, '?' ∈ s.data → isrc_validate s = false)) :=
  ⟨by decide, decode_q_buffer_adr3 c10Buf (by decide)⟩

/-! ## `isrc.c`: the per-track ISRC scan -/

/-- `is_short_track` from `isrc.c`. -/
def is_short_track (track : Track) : Bool := track.length < SHORT_TRACK_THRESHOLD

/-- The `= {0}` collector initialisation of `read_track_isrc`. -/
def emptyCollector : IsrcCollector := { candidates := [], total_valid := 0, total_read := 0 }

/-- One batch-processing loop of `read_track_isrc`: every returned frame
bumps `total_read` and CRC-valid ISRC frames feed `collector_add`; a
failed read (no frames) charges `fallback` frames to `total_read`.  The
purely diagnostic ADR/CRC counters of the C loop do not influence the
result and are not modelled. -/
def runBatch (c : IsrcCollector) (frames : List QSubchannel) (fallback : Nat) : IsrcCollector :=
  if frames.length > 0 then
    frames.foldl (fun c q =>
      if q.crc_valid && q.has_isrc then
        collector_add { c with total_read := c.total_read + 1 } q.isrc
      else { c with total_read := c.total_read + 1 }) c
  else { c with total_read := c.total_read + fallback }

/-- `calculate_tranche_positions` from `isrc.c` (the returned
`frames_per_tranche` is always `FRAMES_PER_TRANCHE`). -/
def calculate_tranche_positions (track : Track) (num_tranches : Nat) : List Int :=
  let track_start := track.offset
  let track_length := track.length
  let usable_start0 := track_start + BOOKEND_FRAMES
  let usable_end0 := track_start + track_length - BOOKEND_FRAMES
  let usable_start := if usable_end0 ≤ usable_start0 then track_start else usable_start0
  let usable_end := if usable_end0 ≤ usable_start0 then track_start + track_length else usable_end0
  let usable_length := usable_end - usable_start
  if num_tranches = 1 then [usable_start + usable_length.tdiv 2]
  else
    let step := usable_length.tdiv ((num_tranches : Int) + 1)
    (List.range num_tranches).map (fun i => usable_start + step * ((i : Int) + 1))

/-- The initial-tranche loop of `read_track_isrc`, with its early-stop
majority check. -/
def runInitialTranches (oracle : Int → Int → List QSubchannel) :
    List Int → IsrcCollector → Option String × IsrcCollector
  | [], c => (none, c)
  | pos :: rest, c =>
    let c := runBatch c (oracle pos (FRAMES_PER_TRANCHE : Int)) FRAMES_PER_TRANCHE
    if c.total_valid ≥ EARLY_STOP_VALID_FRAMES then
      match collector_get_majority c with
      | some w => (some w, c)
      | none => runInitialTranches oracle rest c
    else runInitialTranches oracle rest c

/-- The rescue-tranche loop of `read_track_isrc` (the majority is
rechecked after every rescue tranche). -/
def runRescueTranches (oracle : Int → Int → List QSubchannel) :
    List Int → IsrcCollector → Option String × IsrcCollector
  | [], c => (none, c)
  | pos :: rest, c =>
    let c := runBatch c (oracle pos (FRAMES_PER_TRANCHE : Int)) FRAMES_PER_TRANCHE
    match collector_get_majority c with
    | some w => (some w, c)
    | none => runRescueTranches oracle rest c

/-- `read_track_isrc` from `isrc.c`, parameterised by the Q-subchannel
batch-read oracle (`oracle lba count` is what
`scsi_read_q_subchannel_batch` returns); the result is the ISRC written
into `track->isrc` (`none` when the function returns `false` and leaves
the ISRC empty). -/
def read_track_isrc (oracle : Int → Int → List QSubchannel) (track : Track) : Option String :=
  if track.length < SHORT_TRACK_THRESHOLD then
    let c := runBatch emptyCollector (oracle track.offset track.length) track.length.toNat
    collector_get_majority c
  else
    let positions := calculate_tranche_positions track INITIAL_TRANCHES
    let p := runInitialTranches oracle positions emptyCollector
    match p.1 with
    | some w => some w
    | none =>
      match collector_get_majority p.2 with
      | some w => some w
      | none =>
        if p.2.candidates.length > 0 then
          let positions2 := calculate_tranche_positions track (INITIAL_TRANCHES + RESCUE_TRANCHES)
          (runRescueTranches oracle (positions2.drop INITIAL_TRANCHES) p.2).1
        else none

/-! ### Bridge lemmas for C7 -/

theorem collector_add_empty (t : String) (hval : isrc_validate t = true) (tv tr : Nat) :
    collector_add ⟨[], tv, tr⟩ t = ⟨[⟨t, 1⟩], tv + 1, tr⟩ := by
  simp [collector_add, hval, bumpCandidate, MAX_CANDIDATES]

theorem collector_add_same (t : String) (hval : isrc_validate t = true) (k tv tr : Nat) :
    collector_add ⟨[⟨t, k⟩], tv, tr⟩ t = ⟨[⟨t, k + 1⟩], tv + 1, tr⟩ := by
  simp [collector_add, hval, bumpCandidate]

theorem majority_single (t : String) (k tv tr : Nat) (hk : 2 ≤ k) :
    collector_get_majority ⟨[⟨t, k⟩], tv, tr⟩ = some t := by
  show (if k ≥ 2 ∧ ((0 : Nat) = 0 ∨ k ≥ 2 * 0) then some t else none) = some t
  rw [if_pos ⟨hk, Or.inl rfl⟩]

theorem foldFrames_single_candidate (t : String) (hval : isrc_validate t = true) :
    ∀ (frames : List QSubchannel),
      (∀ q ∈ frames, q.crc_valid = true → q.has_isrc = true → q.isrc = t) →
      ∀ (cands : List IsrcCandidate) (k tv tr : Nat),
      ((cands = [] ∧ k = 0) ∨ (cands = [⟨t, k⟩] ∧ 1 ≤ k)) →
      frames.foldl (fun c q =>
          if q.crc_valid && q.has_isrc then
            collector_add { c with total_read := c.total_read + 1 } q.isrc
          else { c with total_read := c.total_read + 1 })
          (⟨cands, tv, tr⟩ : IsrcCollector) =
        ⟨if k + frames.countP (fun q => q.crc_valid && q.has_isrc) = 0 then []
          else [⟨t, k + frames.countP (fun q => q.crc_valid && q.has_isrc)⟩],
         tv + frames.countP (fun q => q.crc_valid && q.has_isrc), tr + frames.length⟩ := by
  intro frames
  induction frames with
  | nil =>
    intro _ cands k tv tr hinv
    simp only [List.foldl_nil, List.countP_nil, List.length_nil, Nat.add_zero]
    rcases hinv with ⟨hc, hk⟩ | ⟨hc, hk⟩
    · subst hc hk
      rfl
    · subst hc
      rw [if_neg (by omega)]
  | cons q rest ih =>
    intro hagree cands k tv tr hinv
    have hrest : ∀ x ∈ rest, x.crc_valid = true → x.has_isrc = true → x.isrc = t :=
      fun x hx => hagree x (List.mem_cons_of_mem q hx)
    simp only [List.foldl_cons, List.countP_cons, List.length_cons]
    by_cases hp : (q.crc_valid && q.has_isrc) = true
    · have hcrc : q.crc_valid = true := by
        rcases Bool.and_eq_true_iff.mp hp with ⟨h1, _⟩
        exact h1
      have hhas : q.has_isrc = true := by
        rcases Bool.and_eq_true_iff.mp hp with ⟨_, h2⟩
        exact h2
      have hisrc : q.isrc = t := hagree q (List.mem_cons_self q rest) hcrc hhas
      simp only [if_pos hp, hisrc]
      rcases hinv with ⟨hc, hk⟩ | ⟨hc, hk⟩
      · subst hc hk
        rw [collector_add_empty t hval, ih hrest [⟨t, 1⟩] 1 (tv + 1) (tr + 1)
          (Or.inr ⟨rfl, le_refl 1⟩)]
        rw [show (1 : Nat) + rest.countP (fun q => q.crc_valid && q.has_isrc)
            = 0 + (rest.countP (fun q => q.crc_valid && q.has_isrc) + 1) from by omega,
          show tv + 1 + rest.countP (fun q => q.crc_valid && q.has_isrc)
            = tv + (rest.countP (fun q => q.crc_valid && q.has_isrc) + 1) from by omega,
          show tr + 1 + rest.length = tr + (rest.length + 1) from by omega]
      · subst hc
        rw [collector_add_same t hval, ih hrest [⟨t, k + 1⟩] (k + 1) (tv + 1) (tr + 1)
          (Or.inr ⟨rfl, by omega⟩)]
        rw [show k + 1 + rest.countP (fun q => q.crc_valid && q.has_isrc)
            = k + (rest.countP (fun q => q.crc_valid && q.has_isrc) + 1) from by omega,
          show tv + 1 + rest.countP (fun q => q.crc_valid && q.has_isrc)
            = tv + (rest.countP (fun q => q.crc_valid && q.has_isrc) + 1) from by omega,
          show tr + 1 + rest.length = tr + (rest.length + 1) from by omega]
    · simp only [if_neg hp, Nat.add_zero]
      rw [ih hrest cands k tv (tr + 1) hinv]
      rw [show tr + 1 + rest.length = tr + (rest.length + 1) from by omega]

/-- **C7, counterexample.**  `SHORT_TRACK_THRESHOLD` evaluates to
`2*150 + (3+1+1)*192 = 1260`, so a track of length 5000 frames is *not*
below it: `is_short_track` rejects it and the per-track scan takes the
tranche path, not the single full-track batch read. -/
theorem c7_threshold_counterexample :
    SHORT_TRACK_THRESHOLD = 1260 ∧
      ¬ ((5000 : Int) < SHORT_TRACK_THRESHOLD) ∧
      is_short_track { zeroTrack with length := 5000 } = false := by
  refine ⟨by decide, by decide, by decide⟩

/-- **C7, amended.**  A track shorter than `SHORT_TRACK_THRESHOLD`
(e.g. 1200 frames) takes the short-track path: one full-track batch read
at the track's offset; when that batch carries the valid ISRC
`"USRC17607839"` in at least 4 CRC-valid frames and every CRC-valid ISRC
frame agrees on it, the scanner emits `"USRC17607839"`. -/
theorem read_track_isrc_short_track (oracle : Int → Int → List QSubchannel) (track : Track)
    (hlen : track.length < SHORT_TRACK_THRESHOLD)
    (hagree : ∀ q ∈ oracle track.offset track.length,
      q.crc_valid = true → q.has_isrc = true → q.isrc = "USRC17607839")
    (hcount : 4 ≤ (oracle track.offset track.length).countP
      (fun q => q.crc_valid && q.has_isrc)) :
    read_track_isrc oracle track = some "USRC17607839" := by
  have hval : isrc_validate "USRC17607839" = true := by decide
  have hne : (oracle track.offset track.length).length > 0 := by
    by_contra h0
    have h1 : oracle track.offset track.length = [] := by
      cases hcase : oracle track.offset track.length with
      | nil => rfl
      | cons a l =>
        rw [hcase] at h0
        simp at h0
    rw [h1] at hcount
    simp at hcount
  unfold read_track_isrc
  rw [if_pos hlen]
  unfold runBatch
  rw [if_pos hne, show emptyCollector = (⟨[], 0, 0⟩ : IsrcCollector) from rfl,
    foldFrames_single_candidate "USRC17607839" hval (oracle track.offset track.length) hagree
      [] 0 0 0 (Or.inl ⟨rfl, rfl⟩),
    if_neg (by omega)]
  exact majority_single _ _ _ _ (by omega)

/-- A CRC-valid ADR=3 frame carrying the C7 ISRC. -/
def c7Frame : QSubchannel :=
  { control := 0, adr := 3, track := 0, index := 0, isrc := "USRC17607839", mcn := "",
    crc_valid := true, has_isrc := true, has_mcn := false }

/-- A Q-subchannel oracle returning four agreeing valid frames. -/
def c7Oracle : Int → Int → List QSubchannel := fun _ _ => [c7Frame, c7Frame, c7Frame, c7Frame]

/-- A 1200-frame audio track (shorter than the 1260-frame threshold). -/
def c7Track : Track :=
  { number := 1, session := 1, type := .audio, offset := 10000, length := 1200, isrc := "" }

theorem read_track_isrc_short_track_witness :
    c7Track.length < SHORT_TRACK_THRESHOLD ∧
      (∀ q ∈ c7Oracle c7Track.offset c7Track.length,
        q.crc_valid = true → q.has_isrc = true → q.isrc = "USRC17607839") ∧
      4 ≤ (c7Oracle c7Track.offset c7Track.length).countP
        (fun q => q.crc_valid && q.has_isrc) ∧
      read_track_isrc c7Oracle c7Track = some "USRC17607839" :=
  ⟨by decide, by decide, by decide,
    read_track_isrc_short_track c7Oracle c7Track (by decide) (by decide) (by decide)⟩

/-! ## `cdtext.c`: CRC and pack-stream parsing -/

/-- One shift-xor round of the inner loop of `crc16_cdtext` (the
`uint16_t` store truncates to 16 bits). -/
def crc16Round (crc : Nat) : Nat :=
  if crc &&& 0x8000 ≠ 0 then ((crc <<< 1) ^^^ 0x1021) % 2 ^ 16 else (crc <<< 1) % 2 ^ 16

def crc16Rounds : Nat → Nat → Nat
  | 0, crc => crc
  | n + 1, crc => crc16Rounds n (crc16Round crc)

/-- `crc16_cdtext` from `cdtext.c`: CRC-16-CCITT, polynomial `0x1021`,
initial value `0x0000`. -/
def crc16_cdtext (data : List Nat) : Nat :=
  data.foldl (fun crc b => crc16Rounds 8 ((crc ^^^ (b <<< 8)) % 2 ^ 16)) 0

/-- Field accessors of `cdtext_pack_t` over its 18 raw bytes. -/
def packType (p : List Nat) : Nat := p.getD 0 0

def packTrackNum (p : List Nat) : Nat := p.getD 1 0

def packSeqNum (p : List Nat) : Nat := p.getD 2 0

def packCharPos (p : List Nat) : Nat := p.getD 3 0

def packText (p : List Nat) : List Nat := (p.drop 4).take 12

/-- Block number: bits 4..6 of `char_pos`. -/
def packBlock (p : List Nat) : Nat := (packCharPos p >>> 4) &&& 0x07

/-- `cdtext_pack_crc_valid` from `cdtext.c`: the CRC-16-CCITT of bytes
0..15, bitwise inverted (`~` on `uint16_t` is xor with `0xFFFF`), must
equal the big-endian stored CRC at bytes 16..17. -/
def cdtext_pack_crc_valid (p : List Nat) : Bool :=
  ((crc16_cdtext (p.take 16)) ^^^ 0xFFFF) == (((p.getD 16 0) <<< 8) ||| p.getD 17 0)

/-- Splits the raw CD-Text blob into its `len / 18` complete 18-byte
packs. -/
def chunk18 (raw : List Nat) : List (List Nat) :=
  if _h : raw.length < 18 then [] else (raw.take 18) :: chunk18 (raw.drop 18)
termination_by raw.length
decreasing_by
  simp only [List.length_drop]
  omega

/-- The `block_state_t` of `cdtext.c`; the per-`(pack_type, track)` text
accumulators (including the album-genre one, keyed `(0x87, 0)`) live in
one association list. -/
structure BlockState where
  accums : List ((Nat × Nat) × List Nat)
  charset : Nat
  first_track : Nat
  last_track : Nat
  size_info_found : Bool
deriving DecidableEq, Repr, Inhabited

/-- `block_state_init`: ISO-8859-1 charset, track range 1..99. -/
def initBlockState : BlockState :=
  { accums := [], charset := 0x00, first_track := 1, last_track := 99,
    size_info_found := false }

/-- `get_track_accum` from `cdtext.c` as a predicate: which
`(pack_type, track)` pairs have an accumulator (it returns NULL for the
rest; genre is album-only). -/
def canAccum (pack_type track : Nat) : Bool :=
  if track > 99 then false
  else if pack_type = 0x80 ∨ pack_type = 0x81 ∨ pack_type = 0x82 ∨ pack_type = 0x83
      ∨ pack_type = 0x84 ∨ pack_type = 0x85 then true
  else if pack_type = 0x87 then track = 0
  else false

def accumGet (accums : List ((Nat × Nat) × List Nat)) (key : Nat × Nat) : List Nat :=
  match accums.find? (fun e => e.1 = key) with
  | some e => e.2
  | none => []

def accumSet : List ((Nat × Nat) × List Nat) → Nat × Nat → List Nat →
    List ((Nat × Nat) × List Nat)
  | [], key, bytes => [(key, bytes)]
  | e :: rest, key, bytes =>
    if e.1 = key then (key, bytes) :: rest else e :: accumSet rest key bytes

/-- `accum_append` of a single byte (the only way `process_text_pack`
appends). -/
def accumAppendByte (accums : List ((Nat × Nat) × List Nat)) (key : Nat × Nat) (b : Nat) :
    List ((Nat × Nat) × List Nat) :=
  accumSet accums key (accumGet accums key ++ [b])

/-- `process_text_pack` from `cdtext.c`: walk the 12 text bytes; a NUL
byte advances the track cursor (breaking out once past `last_track`),
every other byte goes to the `(pack_type, track)` accumulator when one
exists. -/
def process_text_bytes (last_track pack_type : Nat) :
    List Nat → Nat → List ((Nat × Nat) × List Nat) →
    List ((Nat × Nat) × List Nat) × Nat
  | [], track, accums => (accums, track)
  | b :: rest, track, accums =>
    if b = 0 then
      (if track + 1 > last_track then (accums, track + 1)
       else process_text_bytes last_track pack_type rest (track + 1) accums)
    else
      process_text_bytes last_track pack_type rest track
        (if canAccum pack_type track then accumAppendByte accums (pack_type, track) b
         else accums)

/-- `parse_size_info` from `cdtext.c`: every block-0, CRC-valid `0x8F`
pack with sequence number 0 (re)sets charset and track range. -/
def parse_size_info (packs : List (List Nat)) (st : BlockState) : BlockState :=
  packs.foldl (fun st p =>
    if packType p ≠ 0x8F then st
    else if packBlock p ≠ 0 then st
    else if !cdtext_pack_crc_valid p then st
    else if packSeqNum p = 0 then
      { st with
        charset := (packText p).getD 0 0, first_track := (packText p).getD 1 0,
        last_track := (packText p).getD 2 0, size_info_found := true }
    else st) st

/-- One pack of the second (text) pass of `cdtext_parse`: only block-0
text packs (`0x80..0x87`) passing the CRC contribute; the
`current_track[16]` array is indexed by `pack_type & 0x0F` and reset to
the pack's track number on sequence number 0. -/
def textPassStep (last_track : Nat)
    (s : List ((Nat × Nat) × List Nat) × List Nat) (p : List Nat) :
    List ((Nat × Nat) × List Nat) × List Nat :=
  if packBlock p ≠ 0 then s
  else if packType p < 0x80 ∨ packType p > 0x87 then s
  else if !cdtext_pack_crc_valid p then s
  else
    let type_idx := packType p &&& 0x0F
    let cur := if packSeqNum p = 0 then packTrackNum p else s.2.getD type_idx 0
    let r := process_text_bytes last_track (packType p) (packText p) cur s.1
    (r.1, s.2.set type_idx r.2)

/-- `iso8859_1_to_utf8` from `cdtext.c` at the byte level: stops at the
first NUL, expands bytes `≥ 0x80` into two UTF-8 bytes. -/
def iso8859_1_to_utf8 (src : List Nat) : List Nat :=
  (src.takeWhile (fun c => c ≠ 0)).foldr (fun c acc =>
    (if c < 0x80 then [c] else [0xC0 ||| (c >>> 6), 0x80 ||| (c &&& 0x3F)]) ++ acc) []

def isSpaceByte (c : Nat) : Bool :=
  c = 32 || c = 9 || c = 10 || c = 11 || c = 12 || c = 13

/-- `normalize_cdtext_string` from `cdtext.c`: control bytes other than
newline become spaces, carriage returns are dropped, surrounding
whitespace is trimmed. -/
def normalize_cdtext_string (s0 : List Nat) : List Nat :=
  let s1 := s0.map (fun c => if c < 0x20 ∧ c ≠ 10 then 32 else c)
  let s2 := s1.filter (fun c => c ≠ 13)
  let s3 := s2.dropWhile isSpaceByte
  (s3.reverse.dropWhile isSpaceByte).reverse

/-- `accum_finish` from `cdtext.c`: empty accumulators, and accumulators
that normalise to the empty string, yield an absent field. -/
def accum_finish (bytes : List Nat) (charset : Nat) : Option (List Nat) :=
  if bytes.isEmpty then none
  else
    let decoded := if charset = 0x00 then iso8859_1_to_utf8 bytes else bytes
    let norm := normalize_cdtext_string decoded
    if norm.isEmpty then none else some norm

/-- `cdtext_album_t` (byte-level field values; `none` = absent). -/
structure CdtextAlbumOut where
  album : Option (List Nat)
  albumartist : Option (List Nat)
  genre : Option (List Nat)
  lyricist : Option (List Nat)
  composer : Option (List Nat)
  arranger : Option (List Nat)
  comment : Option (List Nat)
deriving DecidableEq, Repr, Inhabited

/-- `cdtext_track_t` (byte-level field values; `none` = absent). -/
structure CdtextTrackOut where
  title : Option (List Nat)
  artist : Option (List Nat)
  lyricist : Option (List Nat)
  composer : Option (List Nat)
  arranger : Option (List Nat)
  comment : Option (List Nat)
deriving DecidableEq, Repr, Inhabited

/-- `cdtext_t` as produced by `cdtext_parse`. -/
structure CdtextOut where
  album : CdtextAlbumOut
  tracks : List CdtextTrackOut
  track_count : Nat
deriving DecidableEq, Repr, Inhabited

/-- The zeroed `cdtext_t` (`memset` at the start of `cdtext_parse`). -/
def emptyCdtextOut : CdtextOut :=
  { album := ⟨none, none, none, none, none, none, none⟩, tracks := [], track_count := 0 }

/-- The two passes and output construction of `cdtext_parse`, over the
18-byte packs. -/
def cdtext_parse_packs (packs : List (List Nat)) : CdtextOut :=
  let st := parse_size_info packs initBlockState
  if st.charset ≠ 0x00 ∧ st.charset ≠ 0x01 then emptyCdtextOut
  else
    let r := packs.foldl (textPassStep st.last_track) ([], List.replicate 16 0)
    let fin := fun (ty tr : Nat) => accum_finish (accumGet r.1 (ty, tr)) st.charset
    { album :=
        { album := fin 0x80 0, albumartist := fin 0x81 0, genre := fin 0x87 0,
          lyricist := fin 0x82 0, composer := fin 0x83 0, arranger := fin 0x84 0,
          comment := fin 0x85 0 },
      tracks := (List.range (min st.last_track MAX_TRACKS)).map (fun idx =>
        { title := fin 0x80 (idx + 1), artist := fin 0x81 (idx + 1),
          lyricist := fin 0x82 (idx + 1), composer := fin 0x83 (idx + 1),
          arranger := fin 0x84 (idx + 1), comment := fin 0x85 (idx + 1) }),
      track_count := st.last_track }

/-- `cdtext_parse` from `cdtext.c`, from the raw byte blob (no data or
fewer than 18 bytes give the zeroed output). -/
def cdtext_parse (raw : List Nat) : CdtextOut :=
  if raw.length = 0 then emptyCdtextOut
  else if raw.length / 18 = 0 then emptyCdtextOut
  else cdtext_parse_packs (chunk18 raw)

/-! ### Bridge lemmas for C8 -/

theorem foldl_skip_filter {α β : Type} (f : β → α → β) (p : α → Bool)
    (hid : ∀ b a, p a = false → f b a = b) :
    ∀ (l : List α) (b : β), l.foldl f b = (l.filter p).foldl f b := by
  intro l
  induction l with
  | nil => intro b; rfl
  | cons a rest ih =>
    intro b
    cases hpa : p a
    · rw [List.foldl_cons, hid b a hpa, List.filter_cons_of_neg (by rw [hpa]; decide), ih]
    · rw [List.foldl_cons, List.filter_cons_of_pos (by rw [hpa]), List.foldl_cons, ih]

theorem cdtext_parse_packs_filter (packs : List (List Nat)) :
    cdtext_parse_packs packs = cdtext_parse_packs (packs.filter cdtext_pack_crc_valid) := by
  have hsize : ∀ st, parse_size_info packs st
      = parse_size_info (packs.filter cdtext_pack_crc_valid) st := by
    intro st
    unfold parse_size_info
    apply foldl_skip_filter
    intro b p hp
    by_cases h1 : packType p ≠ 0x8F
    · rw [if_pos h1]
    · rw [if_neg h1]
      by_cases h2 : packBlock p ≠ 0
      · rw [if_pos h2]
      · rw [if_neg h2, if_pos (by rw [hp]; rfl)]
  have htext : ∀ (lt : Nat) (init : List ((Nat × Nat) × List Nat) × List Nat),
      packs.foldl (textPassStep lt) init
        = (packs.filter cdtext_pack_crc_valid).foldl (textPassStep lt) init := by
    intro lt init
    apply foldl_skip_filter
    intro b p hp
    unfold textPassStep
    by_cases h1 : packBlock p ≠ 0
    · rw [if_pos h1]
    · rw [if_neg h1]
      by_cases h2 : packType p < 0x80 ∨ packType p > 0x87
      · rw [if_pos h2]
      · rw [if_neg h2, if_pos (by rw [hp]; rfl)]
  unfold cdtext_parse_packs
  rw [hsize initBlockState]
  simp only [htext]

/-- **C8.**  `cdtext_pack_crc_valid` accepts an 18-byte pack if and only
if the stored big-endian 16-bit value at bytes 16..17 equals the bitwise
inversion of the CRC-16-CCITT (polynomial `0x1021`, initial value 0)
computed over bytes 0..15; and `cdtext_parse` discards every pack failing
this check without contributing its text to any field: removing all
CRC-invalid packs leaves the parse result unchanged. -/
theorem cdtext_crc_gate :
    (∀ p : List Nat, cdtext_pack_crc_valid p = true ↔
        ((p.getD 16 0) <<< 8) ||| p.getD 17 0 = (crc16_cdtext (p.take 16)) ^^^ 0xFFFF) ∧
      (∀ packs : List (List Nat),
        cdtext_parse_packs packs = cdtext_parse_packs (packs.filter cdtext_pack_crc_valid)) ∧
      ∀ raw : List Nat, 18 ≤ raw.length →
        cdtext_parse raw = cdtext_parse_packs ((chunk18 raw).filter cdtext_pack_crc_valid) := by
  refine ⟨?_, cdtext_parse_packs_filter, ?_⟩
  · intro p
    unfold cdtext_pack_crc_valid
    rw [beq_iff_eq]
    exact eq_comm
  · intro raw hlen
    unfold cdtext_parse
    rw [if_neg (by omega), if_neg (by omega : ¬ raw.length / 18 = 0)]
    exact cdtext_parse_packs_filter (chunk18 raw)

/-- An 18-byte pack with a correct CRC (type 0x80, track 1, text
`"AB"`). -/
def c8Pack : List Nat :=
  [0x80, 0x01, 0x00, 0x00, 0x41, 0x42, 0, 0, 0, 0, 0, 0, 0, 0, 0, 0, 0x1C, 0x33]

theorem cdtext_crc_gate_witness :
    (cdtext_pack_crc_valid c8Pack = true ↔
        ((c8Pack.getD 16 0) <<< 8) ||| c8Pack.getD 17 0
          = (crc16_cdtext (c8Pack.take 16)) ^^^ 0xFFFF) ∧
      cdtext_parse_packs [c8Pack]
        = cdtext_parse_packs ([c8Pack].filter cdtext_pack_crc_valid) ∧
      (18 ≤ c8Pack.length ∧
        cdtext_parse c8Pack = cdtext_parse_packs ((chunk18 c8Pack).filter cdtext_pack_crc_valid)) :=
  ⟨cdtext_crc_gate.1 c8Pack, cdtext_crc_gate.2.1 [c8Pack],
    by decide, cdtext_crc_gate.2.2 c8Pack (by decide)⟩

/-! ## Round-trip: decimal rendering inverts `strtol` parsing -/

theorem decDigitChar_toNat (n : Nat) (h : n < 10) : (decDigitChar n).toNat = 48 + n := by
  interval_cases n <;> rfl

theorem decDigitChar_digit (n : Nat) (h : n < 10) : isDigitChar (decDigitChar n) = true := by
  interval_cases n <;> decide

theorem decChars_ne_nil (fuel n : Nat) (h : n < fuel) : decChars fuel n ≠ [] := by
  match fuel with
  | fuel + 1 =>
    rw [decChars]
    by_cases h10 : n < 10
    · rw [if_pos h10]; simp
    · rw [if_neg h10]; simp

theorem decChars_digit (fuel n : Nat) : ∀ c ∈ decChars fuel n, isDigitChar c = true := by
  induction fuel generalizing n with
  | zero => intro c hc; simp [decChars] at hc
  | succ fuel ih =>
    intro c hc
    rw [decChars] at hc
    by_cases h10 : n < 10
    · rw [if_pos h10] at hc
      simp only [List.mem_singleton] at hc
      exact hc ▸ decDigitChar_digit n h10
    · rw [if_neg h10] at hc
      rcases List.mem_append.mp hc with hc | hc
      · exact ih (n / 10) c hc
      · simp only [List.mem_singleton] at hc
        exact hc ▸ decDigitChar_digit (n % 10) (by omega)

theorem parseDigitsGo_append (xs ys : List Char) (a : Nat) :
    parseDigitsGo (xs ++ ys) a = (parseDigitsGo xs a).bind (fun b => parseDigitsGo ys b) := by
  induction xs generalizing a with
  | nil => simp [parseDigitsGo]
  | cons c xs ih =>
    rw [List.cons_append, parseDigitsGo, parseDigitsGo]
    by_cases hc : isDigitChar c = true
    · rw [if_pos hc, if_pos hc, ih]
    · rw [if_neg hc, if_neg hc, Option.none_bind]

theorem parseDigitsGo_single (m : Nat) (h : m < 10) (a : Nat) :
    parseDigitsGo [decDigitChar m] a = some (a * 10 + m) := by
  rw [parseDigitsGo, if_pos (decDigitChar_digit m h), decDigitChar_toNat m h, parseDigitsGo]
  congr 1
  omega

theorem parseDigitsGo_decChars : ∀ (fuel n a : Nat), n < fuel →
    parseDigitsGo (decChars fuel n) a = some (a * 10 ^ (decChars fuel n).length + n)
  | fuel + 1, n, a, _h => by
    by_cases h10 : n < 10
    · rw [show decChars (fuel + 1) n = [decDigitChar n] from by rw [decChars, if_pos h10]]
      rw [parseDigitsGo_single n h10]
      simp
    · have hdiv : n / 10 < fuel := by omega
      rw [show decChars (fuel + 1) n = decChars fuel (n / 10) ++ [decDigitChar (n % 10)] from by
        rw [decChars, if_neg h10]]
      rw [parseDigitsGo_append, parseDigitsGo_decChars fuel (n / 10) a hdiv, Option.some_bind,
        parseDigitsGo_single (n % 10) (by omega)]
      congr 1
      rw [List.length_append, List.length_singleton, pow_succ, ← Nat.mul_assoc]
      generalize a * 10 ^ (decChars fuel (n / 10)).length = q
      omega

theorem toInt32_id (v : Int) (h1 : -(2 ^ 31) ≤ v) (h2 : v < 2 ^ 31) : toInt32 v = v := by
  unfold toInt32
  omega

theorem strtolClamp_id (v : Int) (h1 : -(2 ^ 63) ≤ v) (h2 : v ≤ 2 ^ 63 - 1) :
    strtolClamp v = v := by
  unfold strtolClamp
  omega

theorem digit_not_dash (c : Char) (h : isDigitChar c = true) : ¬ c = '-' := by
  intro he
  subst he
  exact absurd h (by decide)

theorem digit_not_plus (c : Char) (h : isDigitChar c = true) : ¬ c = '+' := by
  intro he
  subst he
  exact absurd h (by decide)

theorem parseToken_natRepr (n : Nat) (h : n < 2 ^ 63) :
    parseToken (decChars (n + 1) n) = some ((n : Nat) : Int) := by
  obtain ⟨c, rest, hcr⟩ : ∃ c rest, decChars (n + 1) n = c :: rest := by
    cases hd : decChars (n + 1) n with
    | nil => exact absurd hd (decChars_ne_nil _ _ (by omega))
    | cons c rest => exact ⟨c, rest, rfl⟩
  have hdig : isDigitChar c = true :=
    decChars_digit (n + 1) n c (hcr ▸ List.mem_cons_self c rest)
  rw [hcr, parseToken, if_neg (digit_not_dash c hdig), if_neg (digit_not_plus c hdig), ← hcr,
    parseDigitsGo_decChars (n + 1) n 0 (by omega)]
  simp only [Nat.zero_mul, Nat.zero_add]
  show some (strtolClamp ((n : Nat) : Int)) = some ((n : Nat) : Int)
  rw [strtolClamp_id _ (by omega) (by omega)]

theorem parseToken_intRepr (v : Int) (h1 : -(2 ^ 63) < v) (h2 : v < 2 ^ 63) :
    parseToken (intRepr v).data = some v := by
  by_cases hv : v < 0
  · rw [show (intRepr v).data = '-' :: decChars ((-v).toNat + 1) (-v).toNat from by
      unfold intRepr
      rw [if_pos hv]]
    rw [parseToken, if_pos rfl]
    rw [if_neg (by
      simp only [List.isEmpty_iff]
      exact decChars_ne_nil _ _ (by omega))]
    rw [parseDigitsGo_decChars _ _ 0 (by omega)]
    simp only [Nat.zero_mul, Nat.zero_add]
    show some (strtolClamp (-(((-v).toNat : Nat) : Int))) = some v
    rw [strtolClamp_id _ (by omega) (by omega)]
    congr 1
    omega
  · rw [show (intRepr v).data = decChars (v.toNat + 1) v.toNat from by
      unfold intRepr natRepr
      rw [if_neg hv]]
    rw [parseToken_natRepr v.toNat (by omega)]
    congr 1
    omega

theorem digit_not_sep (c : Char) (h : isDigitChar c = true) : isSepChar c = false := by
  simp only [isDigitChar, Bool.and_eq_true, decide_eq_true_eq] at h
  by_contra hs
  simp only [Bool.not_eq_false, isSepChar, Bool.or_eq_true, decide_eq_true_eq] at hs
  rcases hs with ((rfl | rfl) | rfl) | rfl <;> exact absurd h (by decide)

theorem intRepr_ne_nil (v : Int) : (intRepr v).data ≠ [] := by
  unfold intRepr natRepr
  by_cases hv : v < 0
  · rw [if_pos hv]
    simp
  · rw [if_neg hv]
    exact decChars_ne_nil _ _ (by omega)

theorem intRepr_not_sep (v : Int) : ∀ c ∈ (intRepr v).data, isSepChar c = false := by
  unfold intRepr natRepr
  by_cases hv : v < 0
  · rw [if_pos hv]
    intro c hc
    rcases List.mem_cons.mp hc with rfl | hc
    · decide
    · exact digit_not_sep c (decChars_digit _ _ c hc)
  · rw [if_neg hv]
    intro c hc
    exact digit_not_sep c (decChars_digit _ _ c hc)

theorem tokenizeGo_token (t : List Char) (ht : ∀ c ∈ t, isSepChar c = false) :
    ∀ rest acc, tokenizeGo (t ++ rest) acc = tokenizeGo rest (t.reverse ++ acc) := by
  induction t with
  | nil => intro rest acc; simp
  | cons c t ih =>
    intro rest acc
    have hc : isSepChar c = false := ht c (List.mem_cons_self c t)
    rw [List.cons_append]
    rw [show tokenizeGo (c :: (t ++ rest)) acc = tokenizeGo (t ++ rest) (c :: acc) from by
      rw [tokenizeGo, hc]
      simp]
    rw [ih (fun c hc => ht c (List.mem_cons_of_mem _ hc)) rest (c :: acc)]
    simp

theorem tokenize_joinTokens : ∀ toks : List (List Char),
    (∀ t ∈ toks, t ≠ [] ∧ ∀ c ∈ t, isSepChar c = false) →
    tokenize (joinTokens toks) = toks := by
  intro toks
  induction toks with
  | nil => intro _; rfl
  | cons t rest ih =>
    intro h
    obtain ⟨htne, htsep⟩ := h t (List.mem_cons_self t rest)
    cases rest with
    | nil =>
      show tokenizeGo (joinTokens [t]) [] = [t]
      rw [show joinTokens [t] = t from rfl]
      rw [show (t : List Char) = t ++ [] from by simp]
      rw [tokenizeGo_token t htsep [] []]
      rw [tokenizeGo]
      rw [if_neg (by simp [htne])]
      simp
    | cons t2 ts =>
      show tokenizeGo (joinTokens (t :: t2 :: ts)) [] = t :: t2 :: ts
      rw [show joinTokens (t :: t2 :: ts) = t ++ ' ' :: joinTokens (t2 :: ts) from rfl]
      rw [tokenizeGo_token t htsep _ []]
      rw [tokenizeGo]
      rw [show isSepChar ' ' = true from rfl]
      rw [if_pos rfl]
      rw [if_neg (by simp [htne])]
      rw [show tokenizeGo (joinTokens (t2 :: ts)) [] = t2 :: ts from
        ih (fun u hu => h u (List.mem_cons_of_mem _ hu))]
      simp

theorem mapM_parse_map (vs : List Int)
    (h : ∀ v ∈ vs, -(2 ^ 31) ≤ v ∧ v < 2 ^ 31) :
    (vs.map (fun v => (intRepr v).data)).mapM (fun tok => (parseToken tok).map toInt32)
      = some vs := by
  induction vs with
  | nil => rfl
  | cons v vs ih =>
    obtain ⟨h1, h2⟩ := h v (List.mem_cons_self v vs)
    rw [List.map_cons, List.mapM_cons]
    rw [parseToken_intRepr v (by omega) (by omega)]
    rw [Option.map_some']
    rw [toInt32_id v h1 h2]
    rw [ih (fun u hu => h u (List.mem_cons_of_mem _ hu))]
    rfl

theorem parse_integers_renderInts (vs : List Int) (maxv : Nat)
    (hlen : vs.length ≤ maxv)
    (hbound : ∀ v ∈ vs, -(2 ^ 31) ≤ v ∧ v < 2 ^ 31) :
    parse_integers (renderInts vs) maxv = some vs := by
  unfold parse_integers renderInts
  rw [show (String.mk (joinTokens (vs.map fun v => (intRepr v).data))).data
      = joinTokens (vs.map fun v => (intRepr v).data) from rfl]
  rw [show tokenize (joinTokens (vs.map fun v => (intRepr v).data))
      = vs.map fun v => (intRepr v).data from
    tokenize_joinTokens _ (by
      intro t ht
      obtain ⟨v, _, rfl⟩ := List.mem_map.mp ht
      exact ⟨intRepr_ne_nil v, intRepr_not_sep v⟩)]
  rw [List.take_of_length_le (by simpa using hlen)]
  exact mapM_parse_map vs hbound

/-! ## Canonical TOCs and track-list reconstruction -/

/-- The track-list part of `canonicalToc`: consecutive numbers from
`num`, session 1, all audio, no ISRC, strictly ascending offsets, and
lengths running to the next offset (resp. the leadout). -/
def canonicalTracks : Int → Int → List Track → Bool
  | _, _, [] => true
  | num, leadout, [tr] =>
    decide (tr.number = num) && decide (tr.session = 1) && decide (tr.type = TrackType.audio)
      && decide (tr.isrc = "") && decide (tr.length = leadout - tr.offset)
      && decide (tr.offset < leadout)
  | num, leadout, tr :: tr2 :: rest =>
    decide (tr.number = num) && decide (tr.session = 1) && decide (tr.type = TrackType.audio)
      && decide (tr.isrc = "") && decide (tr.offset < tr2.offset)
      && decide (tr.length = tr2.offset - tr.offset)
      && canonicalTracks (num + 1) leadout (tr2 :: rest)

/-- A TOC in the normal form produced by the all-audio parsers: tracks
1..n in one session, consistent counts and lengths, nonnegative offsets,
and every rendered value inside the `int32_t` range. -/
def canonicalToc (toc : Toc) : Bool :=
  decide (toc.tracks ≠ []) && decide (toc.track_count = toc.tracks.length)
    && decide (toc.track_count ≤ MAX_TRACKS)
    && decide (toc.first_track = 1) && decide (toc.last_track = (toc.tracks.length : Int))
    && decide (toc.audio_count = toc.tracks.length) && decide (toc.data_count = 0)
    && decide (toc.audio_leadout = toc.leadout) && decide (toc.last_session = 1)
    && decide (0 ≤ (toc.tracks.headD zeroTrack).offset)
    && decide (toc.leadout + PREGAP_FRAMES < 2 ^ 31)
    && canonicalTracks 1 toc.leadout toc.tracks

/-- Replace the last track's length (the only length that depends on the
leadout rather than on the offsets). -/
def setLastLength (x : Int) : List Track → List Track
  | [] => []
  | [tr] => [{ tr with length := x }]
  | tr :: tr2 :: rest => tr :: setLastLength x (tr2 :: rest)

/-- FreeDB's seconds/frames quantisation of the leadout: rendering
divides `leadout + 150` by 75, parsing multiplies back. -/
def freedbQuantize (toc : Toc) : Toc :=
  { toc with
    leadout := ((toc.leadout + PREGAP_FRAMES).tdiv FRAMES_PER_SECOND) * FRAMES_PER_SECOND
      - PREGAP_FRAMES,
    audio_leadout := ((toc.leadout + PREGAP_FRAMES).tdiv FRAMES_PER_SECOND) * FRAMES_PER_SECOND
      - PREGAP_FRAMES,
    tracks := setLastLength
      ((((toc.leadout + PREGAP_FRAMES).tdiv FRAMES_PER_SECOND) * FRAMES_PER_SECOND
          - PREGAP_FRAMES) - (toc.tracks.getLastD zeroTrack).offset)
      toc.tracks }

theorem canonicalTracks_ascending : ∀ (num leadout : Int) (l : List Track),
    canonicalTracks num leadout l = true → strictlyAscending (l.map Track.offset) = true
  | _, _, [] => fun _ => rfl
  | _, _, [_] => fun _ => rfl
  | num, leadout, tr :: tr2 :: rest => by
    intro h
    simp only [canonicalTracks, Bool.and_eq_true, decide_eq_true_eq] at h
    obtain ⟨⟨⟨⟨⟨⟨_, _⟩, _⟩, _⟩, hlt⟩, _⟩, hrec⟩ := h
    rw [List.map_cons, List.map_cons, strictlyAscending]
    rw [← List.map_cons Track.offset tr2 rest]
    rw [canonicalTracks_ascending (num + 1) leadout (tr2 :: rest) hrec]
    simp [hlt]

theorem canonicalTracks_mem : ∀ (num leadout : Int) (l : List Track),
    canonicalTracks num leadout l = true → ∀ tr ∈ l,
      tr.session = 1 ∧ tr.type = TrackType.audio ∧ tr.isrc = "" ∧
        num ≤ tr.number ∧ tr.number < num + (l.length : Int)
  | _, _, [] => by intro _ tr htr; simp at htr
  | num, leadout, [tr0] => by
    intro h tr htr
    simp only [canonicalTracks, Bool.and_eq_true, decide_eq_true_eq] at h
    obtain ⟨⟨⟨⟨⟨hnum, hses⟩, hty⟩, hisrc⟩, _⟩, _⟩ := h
    simp only [List.mem_singleton] at htr
    subst htr
    refine ⟨hses, hty, hisrc, le_of_eq hnum.symm, ?_⟩
    rw [hnum]
    simp only [List.length_singleton]
    omega
  | num, leadout, tr0 :: tr2 :: rest => by
    intro h tr htr
    simp only [canonicalTracks, Bool.and_eq_true, decide_eq_true_eq] at h
    obtain ⟨⟨⟨⟨⟨⟨hnum, hses⟩, hty⟩, hisrc⟩, _⟩, _⟩, hrec⟩ := h
    rcases List.mem_cons.mp htr with rfl | htr
    · refine ⟨hses, hty, hisrc, by omega, ?_⟩
      rw [hnum]
      have : (0 : Int) < ((tr2 :: rest).length : Int) + 1 := by positivity
      simp only [List.length_cons]
      push_cast
      omega
    · obtain ⟨h1, h2, h3, h4, h5⟩ := canonicalTracks_mem (num + 1) leadout (tr2 :: rest) hrec tr htr
      refine ⟨h1, h2, h3, by omega, ?_⟩
      simp only [List.length_cons] at h5 ⊢
      push_cast at h5 ⊢
      omega

theorem canonicalTracks_nonneg : ∀ (num leadout : Int) (l : List Track),
    canonicalTracks num leadout l = true → 0 ≤ (l.headD zeroTrack).offset →
      ∀ tr ∈ l, 0 ≤ tr.offset
  | _, _, [] => by intro _ _ tr htr; simp at htr
  | num, leadout, [tr0] => by
    intro _ hhead tr htr
    simp only [List.mem_singleton] at htr
    subst htr
    exact hhead
  | num, leadout, tr0 :: tr2 :: rest => by
    intro h hhead tr htr
    simp only [canonicalTracks, Bool.and_eq_true, decide_eq_true_eq] at h
    obtain ⟨⟨⟨⟨⟨⟨_, _⟩, _⟩, _⟩, hlt⟩, _⟩, hrec⟩ := h
    rcases List.mem_cons.mp htr with rfl | htr
    · exact hhead
    · exact canonicalTracks_nonneg (num + 1) leadout (tr2 :: rest) hrec
        (by simp only [List.headD_cons] at hhead ⊢; omega) tr htr

theorem canonicalTracks_le_last : ∀ (num leadout : Int) (l : List Track),
    canonicalTracks num leadout l = true →
      ∀ tr ∈ l, tr.offset ≤ (l.getLastD zeroTrack).offset
  | _, _, [] => by intro _ tr htr; simp at htr
  | num, leadout, [tr0] => by
    intro _ tr htr
    simp only [List.mem_singleton] at htr
    subst htr
    simp
  | num, leadout, tr0 :: tr2 :: rest => by
    intro h tr htr
    simp only [canonicalTracks, Bool.and_eq_true, decide_eq_true_eq] at h
    obtain ⟨⟨⟨⟨⟨⟨_, _⟩, _⟩, _⟩, hlt⟩, _⟩, hrec⟩ := h
    rw [List.getLastD_cons]
    rcases List.mem_cons.mp htr with rfl | htr
    · have := canonicalTracks_le_last (num + 1) leadout (tr2 :: rest) hrec tr2
        (List.mem_cons_self tr2 rest)
      rw [List.getLastD_cons] at this ⊢
      omega
    · exact canonicalTracks_le_last (num + 1) leadout (tr2 :: rest) hrec tr htr

theorem canonicalTracks_last_lt : ∀ (num leadout : Int) (l : List Track),
    canonicalTracks num leadout l = true → l ≠ [] →
      (l.getLastD zeroTrack).offset < leadout
  | _, _, [] => by intro _ hne; exact absurd rfl hne
  | num, leadout, [tr0] => by
    intro h _
    simp only [canonicalTracks, Bool.and_eq_true, decide_eq_true_eq] at h
    exact h.2
  | num, leadout, tr0 :: tr2 :: rest => by
    intro h _
    simp only [canonicalTracks, Bool.and_eq_true, decide_eq_true_eq] at h
    obtain ⟨_, hrec⟩ := h
    rw [List.getLastD_cons]
    exact canonicalTracks_last_lt (num + 1) leadout (tr2 :: rest) hrec (by simp)

theorem getLastD_tail {α : Type} (a d : α) (l : List α) (h : l ≠ []) :
    (a :: l).getLastD d = l.getLastD d := by
  cases l with
  | nil => exact absurd rfl h
  | cons b t => simp [List.getLastD_cons]

theorem getLastD_map_offset : ∀ (l : List Track), l ≠ [] →
    (l.map Track.offset).getLastD 0 = (l.getLastD zeroTrack).offset
  | [], h => absurd rfl h
  | [_], _ => rfl
  | tr :: tr2 :: rest, _ => by
    rw [show ((tr :: tr2 :: rest).map Track.offset)
        = tr.offset :: (tr2 :: rest).map Track.offset from rfl]
    rw [getLastD_tail tr.offset 0 _ (by simp), getLastD_tail tr zeroTrack _ (by simp)]
    exact getLastD_map_offset (tr2 :: rest) (by simp)

theorem canonicalTracks_last_number : ∀ (num leadout : Int) (l : List Track),
    canonicalTracks num leadout l = true → l ≠ [] →
      (l.getLastD zeroTrack).number = num + (l.length : Int) - 1
  | _, _, [], _, hne => absurd rfl hne
  | num, leadout, [tr], h, _ => by
    simp only [canonicalTracks, Bool.and_eq_true, decide_eq_true_eq] at h
    obtain ⟨⟨⟨⟨⟨hnum, _⟩, _⟩, _⟩, _⟩, _⟩ := h
    simpa using hnum
  | num, leadout, tr :: tr2 :: rest, h, _ => by
    simp only [canonicalTracks, Bool.and_eq_true, decide_eq_true_eq] at h
    obtain ⟨_, hrec⟩ := h
    rw [getLastD_tail tr zeroTrack _ (by simp)]
    rw [canonicalTracks_last_number (num + 1) leadout (tr2 :: rest) hrec (by simp)]
    simp only [List.length_cons]
    push_cast
    ring

theorem canonicalTracks_first (num leadout : Int) (l : List Track)
    (h : canonicalTracks num leadout l = true) (hne : l ≠ []) :
    firstAudioGo l = num := by
  match l with
  | [] => exact absurd rfl hne
  | [tr] =>
    simp only [canonicalTracks, Bool.and_eq_true, decide_eq_true_eq] at h
    obtain ⟨⟨⟨⟨⟨hnum, _⟩, htyp⟩, _⟩, _⟩, _⟩ := h
    rw [firstAudioGo, if_pos htyp, hnum]
  | tr :: tr2 :: rest =>
    simp only [canonicalTracks, Bool.and_eq_true, decide_eq_true_eq] at h
    obtain ⟨⟨⟨⟨⟨⟨hnum, _⟩, htyp⟩, _⟩, _⟩, _⟩, _⟩ := h
    rw [firstAudioGo, if_pos htyp, hnum]

theorem firstAudioGo_append (A B : List Track) (hne : A ≠ [])
    (hA : ∀ tr ∈ A, tr.type = TrackType.audio) :
    firstAudioGo (A ++ B) = firstAudioGo A := by
  match A with
  | [] => exact absurd rfl hne
  | a :: rest =>
    have ha : a.type = TrackType.audio := hA a (List.mem_cons_self a rest)
    rw [List.cons_append, firstAudioGo, if_pos ha, firstAudioGo, if_pos ha]

theorem firstAudioGo_reverse : ∀ (l : List Track), l ≠ [] →
    (∀ tr ∈ l, tr.type = TrackType.audio) →
    firstAudioGo l.reverse = (l.getLastD zeroTrack).number
  | [], hne, _ => absurd rfl hne
  | [tr], _, haud => by
    rw [List.reverse_singleton]
    rw [show (([tr] : List Track).getLastD zeroTrack) = tr from rfl]
    rw [firstAudioGo, if_pos (haud tr (List.mem_cons_self tr []))]
  | tr :: tr2 :: rest, _, haud => by
    rw [List.reverse_cons, getLastD_tail tr zeroTrack _ (by simp)]
    rw [firstAudioGo_append ((tr2 :: rest).reverse) [tr] (by simp)
      (fun u hu => haud u (List.mem_cons_of_mem _ (List.mem_reverse.mp hu)))]
    exact firstAudioGo_reverse (tr2 :: rest) (by simp)
      (fun u hu => haud u (List.mem_cons_of_mem _ hu))

theorem mkTracks_reconstruct : ∀ (num Lv leadout : Int) (tyOf : Int → TrackType)
    (l : List Track), canonicalTracks num leadout l = true →
    (∀ k, tyOf k = TrackType.audio) →
    mkTracksGo tyOf num (l.map Track.offset) (computeLengths (l.map Track.offset) Lv)
      = setLastLength (Lv - (l.getLastD zeroTrack).offset) l
  | _, _, _, _, [], _, _ => rfl
  | num, Lv, leadout, tyOf, [tr], h, hty => by
    simp only [canonicalTracks, Bool.and_eq_true, decide_eq_true_eq] at h
    obtain ⟨⟨⟨⟨⟨hnum, hses⟩, htyp⟩, hisrc⟩, _⟩, _⟩ := h
    rw [show (([tr] : List Track).map Track.offset) = [tr.offset] from rfl]
    rw [show computeLengths [tr.offset] Lv = [Lv - tr.offset] from rfl]
    rw [show (([tr] : List Track).getLastD zeroTrack) = tr from rfl]
    rw [show mkTracksGo tyOf num [tr.offset] [Lv - tr.offset]
        = [{ number := num, session := 1, type := tyOf num, offset := tr.offset,
             length := Lv - tr.offset, isrc := "" }] from rfl]
    rw [show setLastLength (Lv - tr.offset) [tr]
        = [{ tr with length := Lv - tr.offset }] from rfl]
    rw [hty num]
    obtain ⟨tnum, tses, ttyp, toff, tlen, tisrc⟩ := tr
    rw [hnum, hses, htyp, hisrc]
  | num, Lv, leadout, tyOf, tr :: tr2 :: rest, h, hty => by
    simp only [canonicalTracks, Bool.and_eq_true, decide_eq_true_eq] at h
    obtain ⟨⟨⟨⟨⟨⟨hnum, hses⟩, htyp⟩, hisrc⟩, _⟩, hlen⟩, hrec⟩ := h
    rw [getLastD_tail tr zeroTrack _ (by simp)]
    rw [show ((tr :: tr2 :: rest).map Track.offset)
        = tr.offset :: (tr2 :: rest).map Track.offset from rfl]
    rw [show computeLengths (tr.offset :: (tr2 :: rest).map Track.offset) Lv
        = (tr2.offset - tr.offset) :: computeLengths ((tr2 :: rest).map Track.offset) Lv
        from rfl]
    rw [show mkTracksGo tyOf num (tr.offset :: (tr2 :: rest).map Track.offset)
        ((tr2.offset - tr.offset) :: computeLengths ((tr2 :: rest).map Track.offset) Lv)
        = { number := num, session := 1, type := tyOf num, offset := tr.offset,
            length := tr2.offset - tr.offset, isrc := "" }
          :: mkTracksGo tyOf (num + 1) ((tr2 :: rest).map Track.offset)
              (computeLengths ((tr2 :: rest).map Track.offset) Lv) from rfl]
    rw [mkTracks_reconstruct (num + 1) Lv leadout tyOf (tr2 :: rest) hrec hty]
    rw [show setLastLength (Lv - ((tr2 :: rest).getLastD zeroTrack).offset)
        (tr :: tr2 :: rest)
        = tr :: setLastLength (Lv - ((tr2 :: rest).getLastD zeroTrack).offset)
            (tr2 :: rest) from rfl]
    congr 1
    rw [hty num]
    obtain ⟨tnum, tses, ttyp, toff, tlen, tisrc⟩ := tr
    dsimp only at hnum hses htyp hisrc hlen ⊢
    rw [hnum, hses, htyp, hisrc, ← hlen]

theorem setLastLength_self : ∀ (num leadout : Int) (l : List Track),
    canonicalTracks num leadout l = true →
    setLastLength (leadout - (l.getLastD zeroTrack).offset) l = l
  | _, _, [], _ => rfl
  | num, leadout, [tr], h => by
    simp only [canonicalTracks, Bool.and_eq_true, decide_eq_true_eq] at h
    obtain ⟨⟨⟨⟨⟨_, _⟩, _⟩, _⟩, hlen⟩, _⟩ := h
    rw [show (([tr] : List Track).getLastD zeroTrack) = tr from rfl]
    rw [show setLastLength (leadout - tr.offset) [tr]
        = [{ tr with length := leadout - tr.offset }] from rfl]
    rw [← hlen]
  | num, leadout, tr :: tr2 :: rest, h => by
    simp only [canonicalTracks, Bool.and_eq_true, decide_eq_true_eq] at h
    obtain ⟨_, hrec⟩ := h
    rw [getLastD_tail tr zeroTrack _ (by simp)]
    rw [show setLastLength (leadout - ((tr2 :: rest).getLastD zeroTrack).offset)
        (tr :: tr2 :: rest)
        = tr :: setLastLength (leadout - ((tr2 :: rest).getLastD zeroTrack).offset)
            (tr2 :: rest) from rfl]
    rw [setLastLength_self (num + 1) leadout (tr2 :: rest) hrec]

/-! ## Evaluating the parsers on rendered value lists -/

theorem getD_append_length : ∀ (l : List Int) (x d : Int),
    (l ++ [x]).getD l.length d = x
  | [], _, _ => rfl
  | a :: t, x, d => by
    rw [List.cons_append, List.length_cons, List.getD_cons_succ]
    exact getD_append_length t x d

theorem toc_parse_raw_vals_eval (n : Nat) (offs : List Int) (L : Int)
    (hlen : offs.length = n) (h1 : 1 ≤ n) (h99 : n ≤ 99)
    (hnn : ∀ o ∈ offs, 0 ≤ o) (hL : 0 ≤ L)
    (hasc : strictlyAscending offs = true)
    (hlast : offs.getLastD 0 < L) :
    toc_parse_raw_vals (1 :: (n : Int) :: (offs.map (· + PREGAP_FRAMES) ++ [L + PREGAP_FRAMES]))
      = some { first_track := 1, last_track := (n : Int), track_count := n,
               audio_count := n, data_count := 0, leadout := L, audio_leadout := L,
               last_session := 1,
               tracks := mkTracksGo (fun _ => TrackType.audio) 1 offs
                 (computeLengths offs L) } := by
  have hvlen : ((1 : Int) :: (n : Int)
      :: (offs.map (· + PREGAP_FRAMES) ++ [L + PREGAP_FRAMES])).length = n + 3 := by
    simp [hlen]
  have hgetlast : ((1 : Int) :: (n : Int) :: (offs.map (· + PREGAP_FRAMES)
      ++ [L + PREGAP_FRAMES])).getD (n + 3 - 1) 0 = L + PREGAP_FRAMES := by
    rw [show n + 3 - 1 = ((offs.map (· + PREGAP_FRAMES)).length + 1) + 1 from by simp [hlen]]
    rw [List.getD_cons_succ, List.getD_cons_succ]
    exact getD_append_length _ _ _
  have hslice : ((((1 : Int) :: (n : Int) :: (offs.map (· + PREGAP_FRAMES)
      ++ [L + PREGAP_FRAMES])).drop 2).take n) = offs.map (· + PREGAP_FRAMES) := by
    show ((offs.map (· + PREGAP_FRAMES) ++ [L + PREGAP_FRAMES]).take n)
      = offs.map (· + PREGAP_FRAMES)
    exact List.take_left' (by rw [List.length_map, hlen])
  have hmapsub : (offs.map (· + PREGAP_FRAMES)).map (· - PREGAP_FRAMES) = offs := by
    rw [List.map_map]
    conv_rhs => rw [← List.map_id offs]
    refine List.map_congr_left (fun o _ => ?_)
    show o + PREGAP_FRAMES - PREGAP_FRAMES = o
    omega
  have hany : ∀ v ∈ (1 : Int) :: (n : Int) :: (offs.map (· + PREGAP_FRAMES)
      ++ [L + PREGAP_FRAMES]), ¬ v < 0 := by
    intro v hv
    simp only [List.mem_cons, List.mem_append, List.mem_map, List.not_mem_nil,
      or_false] at hv
    rcases hv with rfl | rfl | ⟨o, ho, rfl⟩ | rfl
    · omega
    · omega
    · have := hnn o ho
      unfold PREGAP_FRAMES
      omega
    · unfold PREGAP_FRAMES
      omega
  unfold toc_parse_raw_vals
  rw [hvlen]
  rw [if_neg (by omega)]
  simp only [List.getD_cons_zero, List.getD_cons_succ]
  rw [show ((n : Int) - 1 + 1) = (n : Int) from by omega]
  rw [Int.toNat_natCast]
  rw [if_neg (by omega)]
  rw [if_neg (by omega)]
  rw [if_neg (by push_cast; omega)]
  rw [if_neg (by
    rw [List.any_eq_true]
    rintro ⟨v, hv, hdec⟩
    rw [decide_eq_true_eq] at hdec
    exact hany v hv hdec)]
  rw [hgetlast, add_sub_cancel_right, hslice, hmapsub]
  rw [if_neg (by simp [hasc])]
  rw [if_neg (by omega)]

theorem toc_parse_musicbrainz_vals_eval (n : Nat) (offs : List Int) (L : Int)
    (hlen : offs.length = n) (h1 : 1 ≤ n) (h99 : n ≤ 99)
    (hnn : ∀ o ∈ offs, 0 ≤ o) (hL : 0 ≤ L)
    (hasc : strictlyAscending offs = true)
    (hlast : offs.getLastD 0 < L) :
    toc_parse_musicbrainz_vals
        (1 :: (n : Int) :: (L + PREGAP_FRAMES) :: offs.map (· + PREGAP_FRAMES))
      = some { first_track := 1, last_track := (n : Int), track_count := n,
               audio_count := n, data_count := 0, leadout := L, audio_leadout := L,
               last_session := 1,
               tracks := mkTracksGo (fun _ => TrackType.audio) 1 offs
                 (computeLengths offs L) } := by
  have hvlen : ((1 : Int) :: (n : Int) :: (L + PREGAP_FRAMES)
      :: offs.map (· + PREGAP_FRAMES)).length = n + 3 := by
    simp [hlen]
  have hslice : ((((1 : Int) :: (n : Int) :: (L + PREGAP_FRAMES)
      :: offs.map (· + PREGAP_FRAMES)).drop 3).take n) = offs.map (· + PREGAP_FRAMES) := by
    show ((offs.map (· + PREGAP_FRAMES)).take n) = offs.map (· + PREGAP_FRAMES)
    exact List.take_of_length_le (by rw [List.length_map, hlen])
  have hmapsub : (offs.map (· + PREGAP_FRAMES)).map (· - PREGAP_FRAMES) = offs := by
    rw [List.map_map]
    conv_rhs => rw [← List.map_id offs]
    refine List.map_congr_left (fun o _ => ?_)
    show o + PREGAP_FRAMES - PREGAP_FRAMES = o
    omega
  have hany : ∀ v ∈ (1 : Int) :: (n : Int) :: (L + PREGAP_FRAMES)
      :: offs.map (· + PREGAP_FRAMES), ¬ v < 0 := by
    intro v hv
    simp only [List.mem_cons, List.mem_map] at hv
    rcases hv with rfl | rfl | rfl | ⟨o, ho, rfl⟩
    · omega
    · omega
    · unfold PREGAP_FRAMES
      omega
    · have := hnn o ho
      unfold PREGAP_FRAMES
      omega
  unfold toc_parse_musicbrainz_vals
  rw [hvlen]
  rw [if_neg (by omega)]
  simp only [List.getD_cons_zero, List.getD_cons_succ]
  rw [show ((n : Int) - 1 + 1) = (n : Int) from by omega]
  rw [Int.toNat_natCast]
  rw [if_neg (by omega)]
  rw [if_neg (by omega)]
  rw [if_neg (by push_cast; omega)]
  rw [if_neg (by
    rw [List.any_eq_true]
    rintro ⟨v, hv, hdec⟩
    rw [decide_eq_true_eq] at hdec
    exact hany v hv hdec)]
  rw [add_sub_cancel_right, hslice, hmapsub]
  rw [if_neg (by simp [hasc])]
  rw [if_neg (by omega)]

theorem toc_parse_accuraterip_vals_eval (n : Nat) (offs : List Int) (L : Int)
    (hlen : offs.length = n) (h1 : 1 ≤ n) (h99 : n ≤ 99)
    (hnn : ∀ o ∈ offs, 0 ≤ o) (hL : 0 ≤ L)
    (hasc : strictlyAscending offs = true)
    (hlast : offs.getLastD 0 < L) :
    toc_parse_accuraterip_vals ((n : Int) :: (n : Int) :: 1 :: (offs ++ [L]))
      = some { first_track := 1, last_track := (n : Int), track_count := n,
               audio_count := n, data_count := 0, leadout := L, audio_leadout := L,
               last_session := 1,
               tracks := mkTracksGo (fun _ => TrackType.audio) 1 offs
                 (computeLengths offs L) } := by
  have hvlen : ((n : Int) :: (n : Int) :: 1 :: (offs ++ [L])).length = n + 4 := by
    simp [hlen]
  have hgetlead : ((n : Int) :: (n : Int) :: 1 :: (offs ++ [L])).getD (3 + n) 0 = L := by
    rw [show 3 + n = (n + 1 + 1) + 1 from by omega]
    rw [List.getD_cons_succ, List.getD_cons_succ, List.getD_cons_succ]
    rw [show n = offs.length from hlen.symm]
    exact getD_append_length _ _ _
  have hslice : ((((n : Int) :: (n : Int) :: 1 :: (offs ++ [L])).drop 3).take n) = offs := by
    show ((offs ++ [L]).take n) = offs
    exact List.take_left' hlen
  have hany : ∀ v ∈ (n : Int) :: (n : Int) :: 1 :: (offs ++ [L]), ¬ v < 0 := by
    intro v hv
    simp only [List.mem_cons, List.mem_append, List.not_mem_nil, or_false] at hv
    rcases hv with rfl | rfl | rfl | hv | rfl
    · omega
    · omega
    · omega
    · have := hnn v hv
      omega
    · omega
  have harty : arTrackType (n : Int) (n : Int) 1 = (fun _ => TrackType.audio) :=
    funext fun t => by
      unfold arTrackType
      rw [if_pos rfl]
  unfold toc_parse_accuraterip_vals
  rw [hvlen]
  rw [if_neg (by omega)]
  simp only [List.getD_cons_zero, List.getD_cons_succ]
  rw [Int.toNat_natCast]
  rw [if_neg (by omega)]
  rw [if_neg (by omega)]
  rw [if_neg (by omega)]
  rw [if_neg (by
    rw [List.any_eq_true]
    rintro ⟨v, hv, hdec⟩
    rw [decide_eq_true_eq] at hdec
    exact hany v hv hdec)]
  rw [if_neg (by push_cast; omega)]
  rw [hgetlead, hslice]
  rw [if_neg (by simp [hasc])]
  rw [if_neg (by omega)]
  rw [harty, sub_self]
  rw [Int.toNat_zero]

theorem toc_parse_freedb_vals_eval (n : Nat) (offs : List Int) (S : Int)
    (hlen : offs.length = n) (h1 : 1 ≤ n) (h99 : n ≤ 99)
    (hnn : ∀ o ∈ offs, 0 ≤ o) (hS : 0 ≤ S)
    (hasc : strictlyAscending offs = true) :
    toc_parse_freedb_vals ((n : Int) :: (offs.map (· + PREGAP_FRAMES) ++ [S]))
      = some { first_track := 1, last_track := (n : Int), track_count := n,
               audio_count := n, data_count := 0,
               leadout := S * FRAMES_PER_SECOND - PREGAP_FRAMES,
               audio_leadout := S * FRAMES_PER_SECOND - PREGAP_FRAMES,
               last_session := 1,
               tracks := mkTracksGo (fun _ => TrackType.audio) 1 offs
                 (computeLengths offs (S * FRAMES_PER_SECOND - PREGAP_FRAMES)) } := by
  have hvlen : ((n : Int) :: (offs.map (· + PREGAP_FRAMES) ++ [S])).length = n + 2 := by
    simp [hlen]
  have hgetsec : ((n : Int) :: (offs.map (· + PREGAP_FRAMES) ++ [S])).getD (1 + n) 0
      = S := by
    rw [show 1 + n = n + 1 from by omega]
    rw [List.getD_cons_succ]
    rw [show n = (offs.map (· + PREGAP_FRAMES)).length from by rw [List.length_map, hlen]]
    exact getD_append_length _ _ _
  have hslice : ((((n : Int) :: (offs.map (· + PREGAP_FRAMES) ++ [S])).drop 1).take n)
      = offs.map (· + PREGAP_FRAMES) := by
    show ((offs.map (· + PREGAP_FRAMES) ++ [S]).take n) = offs.map (· + PREGAP_FRAMES)
    exact List.take_left' (by rw [List.length_map, hlen])
  have hmapsub : (offs.map (· + PREGAP_FRAMES)).map (· - PREGAP_FRAMES) = offs := by
    rw [List.map_map]
    conv_rhs => rw [← List.map_id offs]
    refine List.map_congr_left (fun o _ => ?_)
    show o + PREGAP_FRAMES - PREGAP_FRAMES = o
    omega
  have hany : ∀ v ∈ (n : Int) :: (offs.map (· + PREGAP_FRAMES) ++ [S]), ¬ v < 0 := by
    intro v hv
    simp only [List.mem_cons, List.mem_append, List.mem_map, List.not_mem_nil,
      or_false] at hv
    rcases hv with rfl | ⟨o, ho, rfl⟩ | rfl
    · omega
    · have := hnn o ho
      unfold PREGAP_FRAMES
      omega
    · omega
  unfold toc_parse_freedb_vals
  rw [hvlen]
  rw [if_neg (by omega)]
  simp only [List.getD_cons_zero]
  rw [Int.toNat_natCast]
  rw [if_neg (by omega)]
  rw [if_neg (by
    rw [List.any_eq_true]
    rintro ⟨v, hv, hdec⟩
    rw [decide_eq_true_eq] at hdec
    exact hany v hv hdec)]
  rw [if_neg (by push_cast; omega)]
  rw [hgetsec, hslice, hmapsub]
  rw [if_neg (by simp [hasc])]

/-- C4 (amended): for every canonical all-audio TOC (tracks 1..n in one
session with consistent counts, offsets and lengths, all rendered values
in `int32_t` range), parsing the rendering in each dialect returns the
TOC unchanged for Raw, MusicBrainz and AccurateRip, and returns it with
the leadout quantised to whole seconds for FreeDB.  (The literal claim
over every valid TOC fails: see the Enhanced-CD counterexample.) -/
theorem toc_roundtrip (toc : Toc) (h : canonicalToc toc = true) :
    toc_parse_raw (toc_format_raw toc) = some toc ∧
    toc_parse_musicbrainz (toc_format_musicbrainz toc) = some toc ∧
    toc_parse_accuraterip (toc_format_accuraterip toc) = some toc ∧
    toc_parse_freedb (toc_format_freedb toc) = some (freedbQuantize toc) := by
  obtain ⟨ft, lt, tc, ac, dc, lo, alo, ls, trs⟩ := toc
  simp only [canonicalToc, Bool.and_eq_true, decide_eq_true_eq] at h
  obtain ⟨⟨⟨⟨⟨⟨⟨⟨⟨⟨⟨hne, hcnt⟩, h99⟩, hfirst⟩, hlastt⟩, hac⟩, hdc⟩, hal⟩, hls⟩,
    hhead⟩, hbound⟩, htr⟩ := h
  subst hfirst hlastt hcnt hac hdc hls
  have hal' : lo = alo := hal.symm
  subst hal'
  have h99' : trs.length ≤ 99 := h99
  have h1 : 1 ≤ trs.length := List.length_pos.mpr hne
  have hP : PREGAP_FRAMES = 150 := rfl
  have hF : FRAMES_PER_SECOND = 75 := rfl
  have hofflen : (trs.map Track.offset).length = trs.length := List.length_map _ _
  have hasc : strictlyAscending (trs.map Track.offset) = true :=
    canonicalTracks_ascending 1 lo trs htr
  have hnnegT : ∀ tr ∈ trs, 0 ≤ tr.offset := canonicalTracks_nonneg 1 lo trs htr hhead
  have hnn : ∀ o ∈ trs.map Track.offset, 0 ≤ o := by
    intro o ho
    obtain ⟨tr, htr', rfl⟩ := List.mem_map.mp ho
    exact hnnegT tr htr'
  have hlastmem : trs.getLastD zeroTrack ∈ trs := by
    cases trs with
    | nil => exact absurd rfl hne
    | cons a t =>
      rw [List.getLastD_cons]
      exact List.getLastD_mem_cons t a
  have hlastlt : (trs.getLastD zeroTrack).offset < lo :=
    canonicalTracks_last_lt 1 lo trs htr hne
  have hlast : (trs.map Track.offset).getLastD 0 < lo := by
    rw [getLastD_map_offset trs hne]
    exact hlastlt
  have hL : 0 ≤ lo := le_trans (hnnegT _ hlastmem) (le_of_lt hlastlt)
  have hle_last : ∀ tr ∈ trs, tr.offset ≤ (trs.getLastD zeroTrack).offset :=
    canonicalTracks_le_last 1 lo trs htr
  have hovals : ∀ o ∈ trs.map Track.offset, 0 ≤ o ∧ o < lo := by
    intro o ho
    obtain ⟨tr, htr', rfl⟩ := List.mem_map.mp ho
    exact ⟨hnnegT tr htr', lt_of_le_of_lt (hle_last tr htr') hlastlt⟩
  have hrec : mkTracksGo (fun _ => TrackType.audio) 1 (trs.map Track.offset)
      (computeLengths (trs.map Track.offset) lo) = trs := by
    rw [mkTracks_reconstruct 1 lo lo (fun _ => TrackType.audio) trs htr (fun _ => rfl)]
    exact setLastLength_self 1 lo trs htr
  have hlastaud : firstAudioGo trs.reverse = (trs.length : Int) := by
    rw [firstAudioGo_reverse trs hne
      (fun tr htr' => (canonicalTracks_mem 1 lo trs htr tr htr').2.1)]
    rw [canonicalTracks_last_number 1 lo trs htr hne]
    ring
  have hfirstaud : firstAudioGo trs = 1 := canonicalTracks_first 1 lo trs htr hne
  refine ⟨?_, ?_, ?_, ?_⟩
  · -- Raw dialect
    rw [show toc_format_raw ⟨1, (trs.length : Int), trs.length, trs.length, 0, lo, lo, 1, trs⟩
        = renderInts (1 :: (trs.length : Int)
            :: ((trs.map Track.offset).map (· + PREGAP_FRAMES) ++ [lo + PREGAP_FRAMES]))
        from by
      unfold toc_format_raw
      rw [List.map_map]
      rfl]
    unfold toc_parse_raw
    rw [parse_integers_renderInts _ _ (by simp [hofflen]; omega) (by
      intro v hv
      simp only [List.mem_cons, List.mem_append, List.mem_map, List.not_mem_nil,
        or_false] at hv
      rcases hv with rfl | rfl | ⟨o, ho, rfl⟩ | rfl
      · omega
      · omega
      · have := hovals o (List.mem_map.mpr ho)
        omega
      · omega)]
    rw [Option.some_bind]
    rw [toc_parse_raw_vals_eval trs.length (trs.map Track.offset) lo hofflen h1 h99'
      hnn hL hasc hlast]
    rw [hrec]
  · -- MusicBrainz dialect
    rw [show toc_format_musicbrainz
          ⟨1, (trs.length : Int), trs.length, trs.length, 0, lo, lo, 1, trs⟩
        = renderInts (1 :: (trs.length : Int) :: (lo + PREGAP_FRAMES)
            :: (trs.map Track.offset).map (· + PREGAP_FRAMES))
        from by
      unfold toc_format_musicbrainz toc_get_last_audio_track
      simp only [hlastaud, lt_self_iff_false, decide_False, Bool.and_false,
        Bool.false_eq_true, if_false]
      rw [List.filter_eq_self.mpr (by
        intro tr htr'
        obtain ⟨_, _, _, h4, h5⟩ := canonicalTracks_mem 1 lo trs htr tr htr'
        simp only [Bool.and_eq_true, decide_eq_true_eq]
        exact ⟨h4, by omega⟩)]
      rw [List.map_map]
      rfl]
    unfold toc_parse_musicbrainz
    rw [parse_integers_renderInts _ _ (by simp [hofflen]; omega) (by
      intro v hv
      simp only [List.mem_cons, List.mem_map] at hv
      rcases hv with rfl | rfl | rfl | ⟨o, ho, rfl⟩
      · omega
      · omega
      · omega
      · have := hovals o (List.mem_map.mpr ho)
        omega)]
    rw [Option.some_bind]
    rw [toc_parse_musicbrainz_vals_eval trs.length (trs.map Track.offset) lo hofflen h1
      h99' hnn hL hasc hlast]
    rw [hrec]
  · -- AccurateRip dialect
    rw [show toc_format_accuraterip
          ⟨1, (trs.length : Int), trs.length, trs.length, 0, lo, lo, 1, trs⟩
        = renderInts ((trs.length : Int) :: (trs.length : Int) :: 1
            :: (trs.map Track.offset ++ [lo]))
        from by
      unfold toc_format_accuraterip toc_get_first_audio_track
      simp only [hfirstaud]
      rw [if_neg one_ne_zero]
      rfl]
    unfold toc_parse_accuraterip
    rw [parse_integers_renderInts _ _ (by simp [hofflen]; omega) (by
      intro v hv
      simp only [List.mem_cons, List.mem_append, List.not_mem_nil, or_false] at hv
      rcases hv with rfl | rfl | rfl | hv | rfl
      · omega
      · omega
      · omega
      · have := hovals v hv
        omega
      · omega)]
    rw [Option.some_bind]
    rw [toc_parse_accuraterip_vals_eval trs.length (trs.map Track.offset) lo hofflen h1
      h99' hnn hL hasc hlast]
    rw [hrec]
  · -- FreeDB dialect
    have hS0 : 0 ≤ (lo + PREGAP_FRAMES).tdiv FRAMES_PER_SECOND :=
      Int.tdiv_nonneg (by omega) (by rw [hF]; norm_num)
    have hSle : (lo + PREGAP_FRAMES).tdiv FRAMES_PER_SECOND ≤ lo + PREGAP_FRAMES := by
      rw [Int.tdiv_eq_ediv (by omega) (by rw [hF]; norm_num)]
      exact Int.ediv_le_self _ (by omega)
    rw [show toc_format_freedb
          ⟨1, (trs.length : Int), trs.length, trs.length, 0, lo, lo, 1, trs⟩
        = renderInts ((trs.length : Int)
            :: ((trs.map Track.offset).map (· + PREGAP_FRAMES)
              ++ [(lo + PREGAP_FRAMES).tdiv FRAMES_PER_SECOND]))
        from by
      unfold toc_format_freedb
      rw [List.map_map]
      rfl]
    unfold toc_parse_freedb
    rw [parse_integers_renderInts _ _ (by simp [hofflen]; omega) (by
      intro v hv
      simp only [List.mem_cons, List.mem_append, List.mem_map, List.not_mem_nil,
        or_false] at hv
      rcases hv with rfl | ⟨o, ho, rfl⟩ | rfl
      · omega
      · have := hovals o (List.mem_map.mpr ho)
        omega
      · omega)]
    rw [Option.some_bind]
    rw [toc_parse_freedb_vals_eval trs.length (trs.map Track.offset)
      ((lo + PREGAP_FRAMES).tdiv FRAMES_PER_SECOND) hofflen h1 h99' hnn hS0 hasc]
    rw [mkTracks_reconstruct 1
      ((lo + PREGAP_FRAMES).tdiv FRAMES_PER_SECOND * FRAMES_PER_SECOND - PREGAP_FRAMES)
      lo (fun _ => TrackType.audio) trs htr (fun _ => rfl)]
    rfl

/-- An Enhanced CD TOC (audio track then data track in a second
session): `toc_validate` accepts it, but the MusicBrainz renderer drops
the trailing data track. -/
def c4Enhanced : Toc :=
  { first_track := 1, last_track := 2, track_count := 2, audio_count := 1, data_count := 1,
    leadout := 20000, audio_leadout := 10000, last_session := 2,
    tracks := [
      { number := 1, session := 1, type := .audio, offset := 0, length := 10000, isrc := "" },
      { number := 2, session := 2, type := .data, offset := 10000, length := 10000, isrc := "" }] }

/-- C4 (counterexample to the literal claim): a valid Enhanced CD TOC
whose MusicBrainz rendering (`"1 1 10150 150"`) parses back to a
one-track TOC, not the original: the renderer intentionally drops
trailing data tracks, so the round-trip only holds on all-audio TOCs. -/
theorem c4_roundtrip_counterexample :
    toc_validate c4Enhanced = true ∧
    toc_parse_musicbrainz (toc_format_musicbrainz c4Enhanced) ≠ some c4Enhanced := by
  decide

/-- A concrete canonical two-track TOC; its leadout `30000` makes even
the FreeDB quantisation exact. -/
def c4Canon : Toc :=
  { first_track := 1, last_track := 2, track_count := 2, audio_count := 2, data_count := 0,
    leadout := 30000, audio_leadout := 30000, last_session := 1,
    tracks := [
      { number := 1, session := 1, type := .audio, offset := 0, length := 10000, isrc := "" },
      { number := 2, session := 1, type := .audio, offset := 10000, length := 20000, isrc := "" }] }

theorem toc_roundtrip_witness :
    canonicalToc c4Canon = true ∧
    (toc_parse_raw (toc_format_raw c4Canon) = some c4Canon ∧
      toc_parse_musicbrainz (toc_format_musicbrainz c4Canon) = some c4Canon ∧
      toc_parse_accuraterip (toc_format_accuraterip c4Canon) = some c4Canon ∧
      toc_parse_freedb (toc_format_freedb c4Canon) = some (freedbQuantize c4Canon)) :=
  ⟨by decide, toc_roundtrip c4Canon (by decide)⟩
